import Mathlib

/-!
# imgcmp: a verification development

A shallow embedding of `main.go` (the image optimiser that walks a tree,
shrinks JPEG/PNG files with external tools, tallies the savings and opens a
pull request), followed by the theorems that settle the specification's
claims against it.

Conventions of the embedding:
* `int64` values are `Int`, with `wrap64` applied wherever the Go code can
  overflow;
* `float64` values are the type `F64` with exact round-to-nearest-even
  arithmetic over integers (no reals, no approximations);
* Go strings are `String`; regular expressions are a small abstract syntax
  `Re` with a backtracking matcher;
* a panic of the tree walk is `Except.error`; a panic in a goroutine leaves the
  process dying, until the runtime ends it; external commands and the file
  system are explicit oracles;
* the goroutines and `main` take turns under an explicit schedule.
-/

namespace Imgcmp

/-! ## Machine integers -/

/-- Two's-complement wrap of an integer into the `int64` range. -/
def wrap64 (x : Int) : Int := (x + 2 ^ 63) % 2 ^ 64 - 2 ^ 63

/-- The `int64` range. -/
def isInt64 (x : Int) : Prop := -2 ^ 63 ≤ x ∧ x < 2 ^ 63

instance (x : Int) : Decidable (isInt64 x) := by unfold isInt64; infer_instance

/-! ## binary64 arithmetic -/

/-- IEEE-754 binary64 values: NaN, the signed infinities, and the finite values
`(-1)^neg * m * 2^e` (a signed zero is `m = 0`). -/
inductive F64 where
  | nan : F64
  | inf (neg : Bool) : F64
  | fin (neg : Bool) (m : Nat) (e : Int) : F64
deriving DecidableEq, Repr

/-- Nearest integer to the non-negative quotient `n / d`, ties to even. -/
def roundHalfEven (n d : Nat) : Nat :=
  if 2 * (n % d) < d then n / d
  else if d < 2 * (n % d) then n / d + 1
  else if n / d % 2 = 0 then n / d else n / d + 1

/-- Scale the positive quotient `num / den` by powers of two until it lies in
`[2^52, 2^53)`, counting the scaling in the exponent `e`; the exponent stops at
the subnormal grid `-1074` and past the largest finite one. The result is the
scaled numerator, the scaled denominator and the exponent, so that
`num / den = (num' / den') * 2^(e' - e)`. -/
def normalize : Nat → Nat → Nat → Int → Nat × Nat × Int
  | 0, num, den, e => (num, den, e)
  | f + 1, num, den, e =>
    if num < den * 2 ^ 52 then
      if e ≤ -1074 then (num, den, e) else normalize f (2 * num) den (e - 1)
    else if den * 2 ^ 53 ≤ num then
      if 1024 ≤ e then (num, den, e) else normalize f num (2 * den) (e + 1)
    else (num, den, e)

/-- Round-to-nearest-even of `(-1)^neg * num / den` into binary64, with overflow
to infinity. -/
def roundNE (neg : Bool) (num den : Nat) : F64 :=
  if num = 0 then F64.fin neg 0 0
  else
    let s := normalize 2200 num den 0
    let m := roundHalfEven s.1 s.2.1
    if 971 < s.2.2 ∨ (s.2.2 = 971 ∧ 2 ^ 53 ≤ m) then F64.inf neg else F64.fin neg m s.2.2

/-- The conversion `float64(n)` of an integer. -/
def ofInt (n : Int) : F64 := roundNE (decide (n < 0)) n.natAbs 1

/-- binary64 division `x / y`. -/
def F64.div : F64 → F64 → F64
  | .nan, _ => .nan
  | _, .nan => .nan
  | .inf _, .inf _ => .nan
  | .inf a, .fin b _ _ => .inf (xor a b)
  | .fin a _ _, .inf b => .fin (xor a b) 0 0
  | .fin a m e, .fin b m' e' =>
    if m' = 0 then (if m = 0 then .nan else .inf (xor a b))
    else roundNE (xor a b) (m * 2 ^ (e - e').toNat) (m' * 2 ^ (e' - e).toNat)

/-- binary64 multiplication `x * y`. -/
def F64.mul : F64 → F64 → F64
  | .nan, _ => .nan
  | _, .nan => .nan
  | .inf a, .inf b => .inf (xor a b)
  | .inf a, .fin b m _ => if m = 0 then .nan else .inf (xor a b)
  | .fin a m _, .inf b => if m = 0 then .nan else .inf (xor a b)
  | .fin a m e, .fin b m' e' =>
    roundNE (xor a b) (m * m' * 2 ^ (e + e').toNat) (2 ^ (-(e + e')).toNat)

/-- The function `math.Abs`: clears the sign. -/
def F64.abs : F64 → F64
  | .nan => .nan
  | .inf _ => .inf false
  | .fin _ m e => .fin false m e

/-- The conversion `int64(x)`: truncation toward zero. Go leaves the result
implementation-dependent when the value is not representable; `ovf` is that
result (`-2^63` on amd64). -/
def toInt64 (ovf : Int) : F64 → Int
  | .nan => ovf
  | .inf _ => ovf
  | .fin neg m e =>
    let t : Int := ((m * 2 ^ e.toNat / 2 ^ (-e).toNat : Nat) : Int)
    let v : Int := if neg then -t else t
    if -2 ^ 63 ≤ v ∧ v < 2 ^ 63 then v else ovf

/-- The result of `int64(x)` on amd64 when `x` is out of range. -/
def amd64Indefinite : Int := -2 ^ 63

/-- The float constants of `byte2unit` and `diffRate`. -/
def f1e3 : F64 := .fin false 1000 0
def f1e6 : F64 := .fin false 1000000 0
def f1e9 : F64 := .fin false 1000000000 0
def f100 : F64 := .fin false 100 0

/-! ## Formatting -/

/-- The digits of `k / 100` with two decimals: `d.dd`. -/
def dec2 (k : Nat) : String :=
  toString (k / 100) ++ "." ++ toString (k % 100 / 10) ++ toString (k % 10)

/-- The verb `%.2f` of `fmt.Sprintf`: the exact value rounded to two decimals
(ties to even), with the sign of the sign bit. -/
def fmtF2 : F64 → String
  | .nan => "NaN"
  | .inf neg => if neg then "-Inf" else "+Inf"
  | .fin neg m e =>
    (if neg then "-" else "") ++
      dec2 (roundHalfEven (m * 100 * 2 ^ e.toNat) (2 ^ (-e).toNat))

/-- The function `byte2unit` of `main.go`. -/
def byte2unit (ovf : Int) (size : Int) : String :=
  let negative := decide (size < 0)
  let size := toInt64 ovf (F64.abs (ofInt size))
  let res :=
    if 1000000000 ≤ size then fmtF2 ((ofInt size).div f1e9) ++ " GB"
    else if 1000000 ≤ size then fmtF2 ((ofInt size).div f1e6) ++ " MB"
    else if 1000 ≤ size then fmtF2 ((ofInt size).div f1e3) ++ " kB"
    else toString size ++ " Byte"
  if negative then "-" ++ res else res

/-- The function `diffRate` of `main.go`. -/
def diffRate (before after : Int) : String :=
  fmtF2 (((ofInt (wrap64 (after - before))).div (ofInt before)).mul f100) ++ "%"

/-- The function `tableRow` of `main.go`. -/
def tableRow (ovf : Int) (name : String) (before after : Int) : String :=
  "|" ++ name ++ "|" ++ byte2unit ovf before ++ "|" ++ byte2unit ovf after ++ "|" ++
    byte2unit ovf (wrap64 (after - before)) ++ "|" ++ diffRate before after ++ "|"

/-- The text begins with a minus sign. -/
def startsWithMinus (s : String) : Bool :=
  match s.data with
  | c :: _ => c == '-'
  | [] => false

/-! ## Regular expressions -/

/-- The fragment of Go (RE2) regular-expression syntax used by `main.go`. -/
inductive Re where
  /-- A literal character, such as the escaped dot. -/
  | lit (c : Char)
  /-- A character class listing its members, such as `[jJ]`. -/
  | cls (cs : List Char)
  /-- The pattern `.`: any character except a line feed. -/
  | dot
  /-- The assertion `^`: beginning of the text. -/
  | bol
  /-- The assertion `$`: end of the text. -/
  | eol
  | seq (a b : Re)
  | alt (a b : Re)
  /-- The pattern `a?`. -/
  | opt (a : Re)
  /-- The pattern `a+`. -/
  | plus (a : Re)

/-- One or more iterations of the matcher `f`, with fuel. -/
def plusLoop (f : Nat → List Char → (Nat → List Char → Bool) → Bool) :
    Nat → Nat → List Char → (Nat → List Char → Bool) → Bool
  | 0, _, _, _ => false
  | n + 1, i, s, k => f i s (fun j t => k j t || plusLoop f n j t k)

/-- Backtracking matcher: `run r i s k` holds when `r` matches a prefix of `s`
(which starts at offset `i` of the text) and the continuation `k` accepts the
offset and the rest after it. -/
def Re.run : Re → Nat → List Char → (Nat → List Char → Bool) → Bool
  | .lit c, i, s, k =>
    match s with
    | [] => false
    | x :: t => x == c && k (i + 1) t
  | .cls cs, i, s, k =>
    match s with
    | [] => false
    | x :: t => cs.contains x && k (i + 1) t
  | .dot, i, s, k =>
    match s with
    | [] => false
    | x :: t => x != '\n' && k (i + 1) t
  | .bol, i, s, k => i == 0 && k i s
  | .eol, i, s, k => s.isEmpty && k i s
  | .seq a b, i, s, k => a.run i s (fun j t => b.run j t k)
  | .alt a b, i, s, k => a.run i s k || b.run i s k
  | .opt a, i, s, k => a.run i s k || k i s
  | .plus a, i, s, k => plusLoop a.run (s.length + 1) i s k

/-- Search for a match starting at any of the offsets `i, i+1, ...` of the text. -/
def Re.search (r : Re) : Nat → List Char → Bool
  | i, [] => r.run i [] (fun _ _ => true)
  | i, x :: t => r.run i (x :: t) (fun _ _ => true) || Re.search r (i + 1) t

/-- The method `MatchString`: the expression matches somewhere in the text. -/
def Re.matchString (r : Re) (s : String) : Bool := r.search 0 s.data

/-- The pattern `^\..+` of `makeImageList`. -/
def skipDirRegexp : Re := .seq .bol (.seq (.lit '.') (.plus .dot))

/-- The pattern `(\.[jJ][pP][eE]?[gG]$|\.[jJ][pP][eE]$)` of `isJPEG`. -/
def jpegRegexp : Re :=
  .alt
    (.seq (.lit '.') (.seq (.cls ['j', 'J']) (.seq (.cls ['p', 'P'])
      (.seq (.opt (.cls ['e', 'E'])) (.seq (.cls ['g', 'G']) .eol)))))
    (.seq (.lit '.') (.seq (.cls ['j', 'J']) (.seq (.cls ['p', 'P'])
      (.seq (.cls ['e', 'E']) .eol))))

/-- The pattern `\.[pP][nN][gG]$` of `isPNG`. -/
def pngRegexp : Re :=
  .seq (.lit '.') (.seq (.cls ['p', 'P']) (.seq (.cls ['n', 'N'])
    (.seq (.cls ['g', 'G']) .eol)))

/-- The function `isJPEG` of `main.go`. -/
def isJPEG (path : String) : Bool := jpegRegexp.matchString path

/-- The function `isPNG` of `main.go`. -/
def isPNG (path : String) : Bool := pngRegexp.matchString path

/-! ## The tree walk -/

/-- What `os.Lstat` reports about an entry. -/
structure FileInfo where
  name : String
  isDir : Bool

/-- A file-system tree as `filepath.Walk` sees it. The children of a directory
are listed in the order of `readDirNames`. -/
inductive Entry where
  /-- An entry that is not a directory. -/
  | file (name : String)
  /-- A directory; `readErr` is the failure of reading its entries, if any. -/
  | dir (name : String) (readErr : Option String) (children : List Entry)
  /-- An entry on which `os.Lstat` fails with the given error. -/
  | broken (name : String) (err : String)

def Entry.name : Entry → String
  | .file n => n
  | .dir n _ _ => n
  | .broken n _ => n

def Entry.isDir : Entry → Bool
  | .dir _ _ _ => true
  | _ => false

/-- The non-nil errors a walk function returns. -/
inductive WalkErr where
  | skipDir
  | other (msg : String)
deriving DecidableEq

/-- A `filepath.WalkFunc` with its captured state `σ` made explicit. The path is
kept as the list of names below the root; a panic is `Except.error`. -/
abbrev WalkFunc (σ : Type) :=
  List String → Option FileInfo → Option String → σ → Except String (Option WalkErr × σ)

/-- The error message of a walk error. -/
def WalkErr.msg : WalkErr → String
  | .skipDir => "skip this directory"
  | .other m => m

/-- Whether the loop of `walk` returns the error `r` it got for the entry `c`
instead of moving on: any error for a non-directory, any error but `SkipDir`
for a directory or for an entry whose `Lstat` failed. -/
def stopsWalk (c : Entry) (r : Option WalkErr) : Bool :=
  match c with
  | .file _ => r.isSome
  | _ => r.isSome && r != some .skipDir

mutual
/-- The function `walk` of `path/filepath` together with the `os.Lstat` its
caller performs first: when `Lstat` fails the walk function is called with no
file info and the error, otherwise `walk` proper runs. -/
def walk {σ : Type} (fn : WalkFunc σ) (path : List String) :
    Entry → σ → Except String (Option WalkErr × σ)
  | .broken _ err, s => fn path none (some err) s
  | .file name, s => fn path (some ⟨name, false⟩) none s
  | .dir name readErr children, s =>
    match fn path (some ⟨name, true⟩) readErr s with
    | .error p => .error p
    | .ok (err1, s1) =>
      if readErr.isSome || err1.isSome then .ok (err1, s1)
      else walkNames fn path children s1
/-- The loop of `walk` over the names of a directory. -/
def walkNames {σ : Type} (fn : WalkFunc σ) (path : List String) :
    List Entry → σ → Except String (Option WalkErr × σ)
  | [], s => .ok (none, s)
  | c :: rest, s =>
    match walk fn (path ++ [c.name]) c s with
    | .error p => .error p
    | .ok (r, s1) =>
      if stopsWalk c r then .ok (r, s1) else walkNames fn path rest s1
end

/-- The function `filepath.Walk`. -/
def Walk {σ : Type} (fn : WalkFunc σ) (root : Entry) (s : σ) :
    Except String (Option WalkErr × σ) :=
  match walk fn [] root s with
  | .error p => .error p
  | .ok (err, s1) => if err = some .skipDir then .ok (none, s1) else .ok (err, s1)

/-- The composition `filepath.Rel(root, path)` for a path that `Walk` built by
joining names below `root`: the names joined by the separator, `.` for the root
itself. -/
def relOf (path : List String) : String :=
  if path = [] then "." else "/".intercalate path

/-- The message of a nil dereference. -/
def nilDeref : String := "invalid memory address or nil pointer dereference"

/-- The closure `callback` of `makeImageList`; its captured `imageList` is the
state. -/
def callback : WalkFunc (List String) := fun path info _err imageList =>
  match info with
  | none => .error nilDeref
  | some info =>
    if info.isDir then
      if skipDirRegexp.matchString info.name then .ok (some .skipDir, imageList)
      else .ok (none, imageList)
    else
      let rel := relOf path
      if isJPEG rel || isPNG rel then .ok (none, imageList ++ [rel])
      else .ok (none, imageList)

/-- The function `makeImageList` of `main.go`: the image list and the lines
printed, or a panic. -/
def makeImageList (root : Entry) : Except String (List String × List String) :=
  match Walk callback root [] with
  | .error p => .error p
  | .ok (err, imageList) =>
    match err with
    | some e => .ok (imageList, ["1 " ++ e.msg])
    | none => .ok (imageList, [])

/-! ## Processes, external commands and the file system -/

/-- What a run of the program does that the outside can observe. -/
inductive Event where
  /-- A line printed by `fmt.Println`. -/
  | println (s : String)
  /-- An external command started by `exec.Command(...).Output()`. -/
  | exec (command : String) (args : List String)
  /-- The end of the process with a status: `os.Exit(code)`, the return of
  `main` (status 0), or the abort that ends a panic (status 2). -/
  | exit (code : Nat)
  /-- The start of an unrecovered panic. -/
  | panic (msg : String)
deriving DecidableEq

/-- The state of the process: running; dying, from the start of an unrecovered
panic until the runtime aborts the process, while the other goroutines still
run; or dead. -/
inductive Status where
  | running
  | dying
  | dead
deriving DecidableEq

/-- A run so far: its events and the state of the process. -/
structure Run where
  events : List Event
  status : Status
deriving DecidableEq

def Run.start : Run := ⟨[], .running⟩

/-- The call `fmt.Println(s)`. -/
def Run.println (r : Run) (s : String) : Run :=
  if r.status = .dead then r else ⟨r.events ++ [.println s], r.status⟩

/-- The end of the process with a status. -/
def Run.exit (r : Run) (code : Nat) : Run :=
  if r.status = .dead then r else ⟨r.events ++ [.exit code], .dead⟩

/-- An unrecovered panic starts: the process is dying. A panic in a process that
is dying already waits for the first one to end the process. -/
def Run.panic (r : Run) (msg : String) : Run :=
  match r.status with
  | .running => ⟨r.events ++ [.panic msg], .dying⟩
  | _ => r

/-- The runtime ends a dying process with status 2. -/
def Run.abort (r : Run) : Run :=
  match r.status with
  | .dying => r.exit 2
  | _ => r

/-- The function `execCommand` of `main.go`; `cmdErr` is the error of the
external command, if it fails. -/
def Run.execCommand (cmdErr : String → List String → Option String) (r : Run)
    (command : String) (args : List String) : Run :=
  if r.status = .dead then r
  else
    let r1 : Run := ⟨r.events ++ [.exec command args], r.status⟩
    match cmdErr command args with
    | none => r1
    | some err => (r1.println err).exit 1

/-- The external commands of a run, in the order they were started. -/
def commandsOf : List Event → List (String × List String)
  | [] => []
  | .exec c a :: rest => (c, a) :: commandsOf rest
  | _ :: rest => commandsOf rest

/-- The function `optimizeImage` of `main.go`. -/
def optimizeImage (cmdErr : String → List String → Option String) (r : Run)
    (path : String) : Run :=
  if isJPEG path then r.execCommand cmdErr "jpegoptim" ["-m85", path]
  else if isPNG path then r.execCommand cmdErr "optipng" ["-o2", path]
  else r

/-- What `os.Open` followed by `Stat` gives for a path: the open error, or the
open file with its stat error or its size. -/
inductive Opened where
  | openErr (msg : String)
  | statErr (msg : String)
  | size (n : Int)

/-- The call `os.Open(path)`: the file (here what `Stat` on it will give) and
the error. -/
def osOpen (fs : String → Opened) (path : String) : Option Opened × Option String :=
  match fs path with
  | .openErr msg => (none, some msg)
  | o => (some o, none)

/-- The method `(*os.File).Stat`: on a nil file it returns `ErrInvalid`. -/
def fileStat : Option Opened → Option Int × Option String
  | none => (none, some "invalid argument")
  | some (.openErr _) => (none, some "invalid argument")
  | some (.statErr msg) => (none, some msg)
  | some (.size n) => (some n, none)

/-- The function `fileSize` of `main.go`: the run after it, and the size it
returns when it returns; it returns none when it panics. -/
def fileSize (fs : String → Opened) (r : Run) (path : String) : Run × Option Int :=
  let (file, errOpen) := osOpen fs path
  let r1 := match errOpen with
    | some e => r.println e
    | none => r
  let (info, errStat) := fileStat file
  let r2 := match errStat with
    | some e => r1.println e
    | none => r1
  match info with
  | none => (r2.panic nilDeref, none)
  | some n => (r2, some n)

/-! ## The publisher: `main` after the join -/

/-- The initial value of `pullRequestMessage`. -/
def pullRequestMessage0 : List String :=
  ["[imgcmp] Optimize images", "", "## Successfully optimized"]

/-- The initial value of `reportTable`. -/
def reportTable0 : List String :=
  ["<details>", "", "<summary>details</summary>", "",
   "|File Name|Before|After|Diff (size)|Diff (rate)|", "|:---|---:|---:|---:|---:|"]

/-- The environment of the publisher: the outcome of the external commands and
the two environment variables. -/
structure Env where
  cmdErr : String → List String → Option String
  githubSha : String
  remoteBranch : String

/-- The report table that `main` passes on to the pull request. -/
def finalReport (ovf : Int) (reportTable : List String) (tb ta : Int) : List String :=
  reportTable ++ [tableRow ovf "Total" tb ta, "", "</details>"]

/-- The pull-request message that `main` composes. -/
def finalMessage (ovf : Int) (reportTable : List String) (tb ta : Int) : List String :=
  pullRequestMessage0 ++
    ["Your image file size has been reduced by **" ++ diffRate tb ta ++ "** (**" ++
       byte2unit ovf (wrap64 (ta - tb)) ++ "**)", ""] ++
    finalReport ovf reportTable tb ta

/-- A statement of `main` that the outside can observe. -/
inductive Stmt where
  | println (s : String)
  | execCommand (command : String) (args : List String)

/-- The process executes a statement. -/
def Run.stmt (cmdErr : String → List String → Option String) (r : Run) : Stmt → Run
  | .println s => r.println s
  | .execCommand command args => r.execCommand cmdErr command args

/-- Lines 50 to 70 of `main`: the statements that follow `wg.Wait()`, in the
order of the code, with the shared variables as the goroutines left them. The
assignments in between build the arguments. -/
def publishStmts (ovf : Int) (env : Env) (reportTable : List String)
    (totalBeforeSize totalAfterSize : Int) : List Stmt :=
  if wrap64 (totalAfterSize - totalBeforeSize) = 0 then
    [.println "images are already optimized"]
  else
    [.execCommand "git" ["add", "."],
     .execCommand "git" ["commit", "-m", "Optimize images of " ++ env.githubSha],
     .execCommand "git" ["push", "origin", env.remoteBranch],
     .execCommand "hub"
       ["pull-request", "-m",
        "\n".intercalate (finalMessage ovf reportTable totalBeforeSize totalAfterSize)],
     .println "Successfully optimized"]

/-! ## The goroutines of `main` -/

/-- Where a goroutine stands in the body of lines 37 to 45. A compound
assignment `x += y` on a shared variable is a load followed by a store. -/
inductive PC where
  | measureBefore | optimize | measureAfter
  | lock | append | unlock
  | loadBefore | storeBefore | loadAfter | storeAfter
  | done
deriving DecidableEq

/-- One goroutine: its argument `p`, its locals, its program counter and the
value it last loaded from a shared total. At `done` the deferred `wg.Done()`
has run. -/
structure Goroutine where
  p : String
  beforeSize : Int
  afterSize : Int
  pc : PC
  loaded : Int

/-- The variables of `main` that the goroutines share, the number of statements
that `main` has executed after `wg.Wait()`, and the process. -/
structure Shared where
  reportTable : List String
  totalBeforeSize : Int
  totalAfterSize : Int
  locked : Bool
  mainPc : Nat
  run : Run

/-- The world of a whole run of `main`: the tree at `.`, the state of each file
before (`false`) and after (`true`) its optimiser ran, and the environment. -/
structure World where
  tree : Entry
  fs : Bool → String → Opened
  env : Env

/-- One step of a goroutine. A goroutine that waits for the mutex or has
finished does not move, and nothing moves in a dead process. When `fileSize`
panics the deferred `wg.Done()` runs while the panic unwinds: the goroutine is
done and the process is dying. -/
def stepG (ovf : Int) (w : World) (sh : Shared) (g : Goroutine) : Shared × Goroutine :=
  if sh.run.status = .dead then (sh, g) else
  match g.pc with
  | .measureBefore =>
    match fileSize (w.fs false) sh.run g.p with
    | (r, some n) => ({ sh with run := r }, { g with beforeSize := n, pc := .optimize })
    | (r, none) => ({ sh with run := r }, { g with pc := .done })
  | .optimize =>
    ({ sh with run := optimizeImage w.env.cmdErr sh.run g.p }, { g with pc := .measureAfter })
  | .measureAfter =>
    match fileSize (w.fs true) sh.run g.p with
    | (r, some n) => ({ sh with run := r }, { g with afterSize := n, pc := .lock })
    | (r, none) => ({ sh with run := r }, { g with pc := .done })
  | .lock =>
    if sh.locked then (sh, g) else ({ sh with locked := true }, { g with pc := .append })
  | .append =>
    ({ sh with reportTable := sh.reportTable ++ [tableRow ovf g.p g.beforeSize g.afterSize] },
     { g with pc := .unlock })
  | .unlock => ({ sh with locked := false }, { g with pc := .loadBefore })
  | .loadBefore => (sh, { g with loaded := sh.totalBeforeSize, pc := .storeBefore })
  | .storeBefore =>
    ({ sh with totalBeforeSize := wrap64 (g.loaded + g.beforeSize) }, { g with pc := .loadAfter })
  | .loadAfter => (sh, { g with loaded := sh.totalAfterSize, pc := .storeAfter })
  | .storeAfter =>
    ({ sh with totalAfterSize := wrap64 (g.loaded + g.afterSize) }, { g with pc := .done })
  | .done => (sh, g)

/-- The scheduler lets goroutine `i` take a step. -/
def stepAt (ovf : Int) (w : World) : Shared × List Goroutine → Nat → Shared × List Goroutine
  | (sh, []), _ => (sh, [])
  | (sh, g :: gs), 0 => let (sh1, g1) := stepG ovf w sh g; (sh1, g1 :: gs)
  | (sh, g :: gs), i + 1 => let (sh1, gs1) := stepAt ovf w (sh, gs) i; (sh1, g :: gs1)

/-- Every goroutine has called `wg.Done()`, so that `wg.Wait()` returns. -/
def joined (gs : List Goroutine) : Bool := gs.all fun g => g.pc = .done

/-- One step of `main` from `wg.Wait()` on: it waits until every goroutine is
done, then executes the next statement of lines 50 to 70, and after the last one
returns, which ends the process with status 0. While a panic is under way the
return waits for the runtime to abort the process. -/
def stepMain (ovf : Int) (w : World) (st : Shared × List Goroutine) :
    Shared × List Goroutine :=
  if st.1.run.status = .dead then st
  else if !joined st.2 then st
  else
    match (publishStmts ovf w.env st.1.reportTable st.1.totalBeforeSize
        st.1.totalAfterSize).drop st.1.mainPc with
    | stmt :: _ =>
      ({ st.1 with run := st.1.run.stmt w.env.cmdErr stmt, mainPc := st.1.mainPc + 1 }, st.2)
    | [] =>
      if st.1.run.status = .running then ({ st.1 with run := st.1.run.exit 0 }, st.2) else st

/-- Whose turn it is: a goroutine, `main`, or the runtime that ends a dying
process. -/
inductive Turn where
  | go (i : Nat)
  | main
  | abort
deriving DecidableEq

/-- One turn of the schedule. -/
def stepTurn (ovf : Int) (w : World) (st : Shared × List Goroutine) :
    Turn → Shared × List Goroutine
  | .go i => stepAt ovf w st i
  | .main => stepMain ovf w st
  | .abort => ({ st.1 with run := st.1.run.abort }, st.2)

/-- An interleaving: the turns are taken in the order of the schedule. -/
def runSchedule (ovf : Int) (w : World) (st : Shared × List Goroutine) (sched : List Turn) :
    Shared × List Goroutine :=
  sched.foldl (stepTurn ovf w) st

/-- The goroutines that the loop of `main` launches, one per path. -/
def spawn (imageList : List String) : List Goroutine :=
  imageList.map fun p => ⟨p, 0, 0, .measureBefore, 0⟩

/-- The shared variables and the goroutines when the schedule has run, from the
launch of one goroutine per path. -/
def launchAndRun (ovf : Int) (w : World) (r0 : Run) (imageList : List String)
    (sched : List Turn) : Shared × List Goroutine :=
  runSchedule ovf w (⟨reportTable0, 0, 0, false, 0, r0⟩, spawn imageList) sched

/-- The function `main` under a schedule: the run of the process when the
schedule has been followed. A panic of `makeImageList` is a panic of `main`
itself, which nothing survives. -/
def main (ovf : Int) (w : World) (sched : List Turn) : Run :=
  match makeImageList w.tree with
  | .error p => (Run.start.panic p).abort
  | .ok (imageList, printed) =>
    (launchAndRun ovf w (printed.foldl Run.println Run.start) imageList sched).1.run

/-- The four commands of the publisher, in the order of the code. -/
def fourCommands (ovf : Int) (env : Env) (reportTable : List String) (tb ta : Int) :
    List (String × List String) :=
  [("git", ["add", "."]),
   ("git", ["commit", "-m", "Optimize images of " ++ env.githubSha]),
   ("git", ["push", "origin", env.remoteBranch]),
   ("hub", ["pull-request", "-m", "\n".intercalate (finalMessage ovf reportTable tb ta)])]

/-- The events of a list of commands run one after the other by `execCommand`
and followed by the closing message and the return of `main`: each command is
started, and the first one that fails has its error printed and ends the
process with status 1. -/
def commandEvents (cmdErr : String → List String → Option String) :
    List (String × List String) → List Event
  | [] => [.println "Successfully optimized", .exit 0]
  | c :: rest =>
    match cmdErr c.1 c.2 with
    | none => .exec c.1 c.2 :: commandEvents cmdErr rest
    | some err => [.exec c.1 c.2, .println err, .exit 1]

/-- The commands of a list up to and including the first one that fails. -/
def untilFailure (cmdErr : String → List String → Option String) :
    List (String × List String) → List (String × List String)
  | [] => []
  | c :: rest => if (cmdErr c.1 c.2).isNone then c :: untilFailure cmdErr rest else [c]

/-- The events of `main` after the join as the amended claim describes them: the
no-op message and the return when the totals are equal, the commands otherwise. -/
def eventsAfterJoin (ovf : Int) (env : Env) (reportTable : List String) (tb ta : Int) :
    List Event :=
  if ta = tb then [.println "images are already optimized", .exit 0]
  else commandEvents env.cmdErr (fourCommands ovf env reportTable tb ta)

/-- A file system with the given sizes before and after optimisation; any other
path cannot be opened. -/
def sizesFs (files : List (String × Int × Int)) (optimised : Bool) (p : String) : Opened :=
  match files.find? (fun f => f.1 = p) with
  | some f => .size (if optimised then f.2.2 else f.2.1)
  | none => .openErr ("open " ++ p ++ ": no such file or directory")

/-- An environment in which every external command succeeds. -/
def calmEnv : Env := ⟨fun _ _ => none, "0a1b2c3", "imgcmp"⟩

/-- An environment in which `git add` fails. -/
def brokenGitEnv : Env :=
  ⟨fun c a => if c = "git" ∧ a = ["add", "."] then some "exit status 128" else none,
   "0a1b2c3", "imgcmp"⟩

/-- Two images: 1000 to 800 bytes and 500 to 400 bytes. -/
def twoFiles : World where
  tree := .dir "." none [.file "a.png", .file "b.png"]
  fs := sizesFs [("a.png", 1000, 800), ("b.png", 500, 400)]
  env := calmEnv

/-- The three images of the end-to-end example: (1000, 800), (2000, 2000) and
(500, 400). -/
def threeFiles : World where
  tree := .dir "." none [.file "a.png", .file "b.png", .file "c.png"]
  fs := sizesFs [("a.png", 1000, 800), ("b.png", 2000, 2000), ("c.png", 500, 400)]
  env := calmEnv

/-- The three images of the example where `git add` fails. -/
def threeFilesBrokenGit : World where
  tree := .dir "." none [.file "a.png", .file "b.png", .file "c.png"]
  fs := sizesFs [("a.png", 1000, 800), ("b.png", 2000, 2000), ("c.png", 500, 400)]
  env := brokenGitEnv

/-- One image that cannot be opened. -/
def lostFile : World where
  tree := .dir "." none [.file "a.png"]
  fs := sizesFs []
  env := calmEnv

/-- Every goroutine runs to its end before the next one starts. -/
def serialSchedule (n : Nat) : List Turn :=
  (List.range n).foldr (fun i acc => List.replicate 10 (.go i) ++ acc) []

/-- The first goroutine loads `totalBeforeSize`, the others then run to their
end, and the first one stores its sum and finishes last. -/
def overlappingSchedule (n : Nat) : List Turn :=
  List.replicate 7 (.go 0) ++
    (List.range (n - 1)).foldr (fun i acc => List.replicate 10 (.go (i + 1)) ++ acc) [] ++
    List.replicate 3 (.go 0)

/-- The turns in which `main` runs from `wg.Wait()` to its return. -/
def mainTurns : List Turn := List.replicate 6 .main

/-- The state after the join of the three images of the example under the
serial schedule. -/
def joinedThree : Shared × List Goroutine :=
  launchAndRun amd64Indefinite threeFiles Run.start ["a.png", "b.png", "c.png"]
    (serialSchedule 3)

/-! ## Predicates used by the theorems -/

/-- A list of characters that is non-empty and does not begin with a minus sign. -/
def NoMinus (l : List Char) : Prop := ∃ c cs, l = c :: cs ∧ c ≠ '-'

/-- A binary64 value whose sign bit is clear and that is not a NaN. -/
def F64.SignClear : F64 → Prop
  | .nan => False
  | .inf neg => neg = false
  | .fin neg _ _ => neg = false

/-- The claim's reading of `byte2unit` on a non-negative size: the numeral of
`n` below 1000, and above it `n` over the unit's divisor rounded to the nearest
numeral with two decimals. -/
def byte2unitSpec (n : Nat) : String :=
  if n < 1000 then toString n ++ " Byte"
  else if n < 1000000 then dec2 (roundHalfEven (n * 100) 1000) ++ " kB"
  else if n < 1000000000 then dec2 (roundHalfEven (n * 100) 1000000) ++ " MB"
  else dec2 (roundHalfEven (n * 100) 1000000000) ++ " GB"

/-- The divisor of the unit in which a size is shown. -/
def unitDivisor (n : Nat) : Nat :=
  if n < 1000 then 1
  else if n < 1000000 then 1000
  else if n < 1000000000 then 1000000
  else 1000000000

/-- The size over its unit's divisor lies exactly halfway between two
consecutive numerals with two decimals. -/
def atTie (n : Nat) : Bool := decide (2 * (n * 100 % unitDivisor n) = unitDivisor n)

/-- The character `c` is the letter `d` of a pattern in lower or upper case. -/
def sameLetter (c d : Char) : Bool := c == d || c == d.toUpper

/-- The text `t` is the pattern `ext`, letter by letter, in any mix of cases. -/
def matchesAnyCase : List Char → List Char → Bool
  | [], [] => true
  | c :: cs, d :: ds => sameLetter c d && matchesAnyCase cs ds
  | _, _ => false

/-- The claim's reading of the classifier: the path `p` ends with `ext` in any
mix of upper and lower case. -/
def endsWithAnyCase (p ext : String) : Bool :=
  p.data.tails.any fun t => matchesAnyCase t ext.data

/-- A name that the pattern `^\..+` matches: a dot followed by a character other
than a line feed. -/
def hiddenName (n : String) : Bool :=
  match n.data with
  | c :: d :: _ => c == '.' && d != '\n'
  | _ => false

mutual
/-- The non-directory entries of a tree, in the order of the walk: for each one
the names of the directories above it, from the root down, and its path below
the root. -/
def leaves (dirs path : List String) : Entry → List (List String × List String)
  | .file _ => [(dirs, path)]
  | .broken _ _ => []
  | .dir name _ children => leavesList (dirs ++ [name]) path children
/-- The non-directory entries below a list of siblings. -/
def leavesList (dirs path : List String) : List Entry → List (List String × List String)
  | [] => []
  | c :: rest => leaves dirs (path ++ [c.name]) c ++ leavesList dirs path rest
end

mutual
/-- The walk meets no error on the way: `Lstat` succeeds on every entry it
visits and every directory it descends into can be read. What lies below a
pruned directory is not visited and is not constrained. -/
def walkable : Entry → Bool
  | .file _ => true
  | .broken _ _ => false
  | .dir name readErr children => hiddenName name || (readErr.isNone && walkableList children)
/-- The walk meets no error on the way through a list of siblings. -/
def walkableList : List Entry → Bool
  | [] => true
  | c :: rest => walkable c && walkableList rest
end

/-- A non-directory entry belongs to the image list: none of the directories
above it is pruned, and its path is classified JPEG or PNG. -/
def keeps (x : List String × List String) : Bool :=
  x.1.all (fun d => !hiddenName d) && (isJPEG (relOf x.2) || isPNG (relOf x.2))

/-- The image list the claim describes, read off the tree. -/
def expectedImages (root : Entry) : List String :=
  ((leaves [] [] root).filter keeps).map fun x => relOf x.2

/-- The name starts with a dot. -/
def startsWithDot (n : String) : Bool :=
  match n.data with
  | c :: _ => c == '.'
  | [] => false

/-- The image list as the claim words it: the classified entries with no
directory below the root, above them, whose name starts with a dot. -/
def claimedImages (root : Entry) : List String :=
  ((leaves [] [] root).filter fun x =>
    x.1.tail.all (fun d => !startsWithDot d) && (isJPEG (relOf x.2) || isPNG (relOf x.2))).map
    fun x => relOf x.2

/-- A tree with a `.git` directory that holds an entry on which `Lstat` fails
and a directory that cannot be read, a `.hidden` directory two levels down and
ordinary nested directories. -/
def sampleTree : Entry :=
  .dir "." none
    [.file "a.png",
     .dir ".git" none
       [.file "x.png", .broken "index.lock" "lstat .git/index.lock: permission denied",
        .dir "objects" (some "open .git/objects: permission denied") []],
     .dir "sub" none
       [.dir "deep" none [.dir ".hidden" none [.file "h.jpg"], .file "B.JPEG"],
        .file "readme.md"]]

/-! ## Lemmas on the arithmetic -/

theorem roundHalfEven_ge (n d : Nat) : n / d ≤ roundHalfEven n d := by
  unfold roundHalfEven
  split_ifs <;> omega

/-- The rounded quotient is within half a unit of the exact one. -/
theorem roundHalfEven_near (n d : Nat) (hd : 0 < d) :
    2 * (roundHalfEven n d * d) ≤ 2 * n + d ∧ 2 * n ≤ 2 * (roundHalfEven n d * d) + d := by
  have h := Nat.div_add_mod n d
  have hm := Nat.mod_lt n hd
  have hc : n / d * d = d * (n / d) := Nat.mul_comm _ _
  unfold roundHalfEven
  split_ifs <;> (try simp only [Nat.add_mul, Nat.one_mul]) <;> omega

/-- Away from a tie the rounded quotient is strictly within half a unit. -/
theorem roundHalfEven_near_strict (n d : Nat) (hd : 0 < d) (ht : 2 * (n % d) ≠ d) :
    2 * (roundHalfEven n d * d) < 2 * n + d ∧ 2 * n < 2 * (roundHalfEven n d * d) + d := by
  have h := Nat.div_add_mod n d
  have hm := Nat.mod_lt n hd
  have hc : n / d * d = d * (n / d) := Nat.mul_comm _ _
  unfold roundHalfEven
  split_ifs <;> (try simp only [Nat.add_mul, Nat.one_mul]) <;> omega

/-- An integer strictly within half a unit of the quotient is the rounded
quotient. -/
theorem roundHalfEven_unique (n d k : Nat) (hd : 0 < d)
    (h1 : 2 * (k * d) < 2 * n + d) (h2 : 2 * n < 2 * (k * d) + d) :
    roundHalfEven n d = k := by
  obtain ⟨h3, h4⟩ := roundHalfEven_near n d hd
  rcases Nat.lt_trichotomy (roundHalfEven n d) k with h | h | h
  · have : (roundHalfEven n d + 1) * d ≤ k * d := Nat.mul_le_mul_right d h
    rw [Nat.add_mul, Nat.one_mul] at this
    omega
  · exact h
  · have : (k + 1) * d ≤ roundHalfEven n d * d := Nat.mul_le_mul_right d h
    rw [Nat.add_mul, Nat.one_mul] at this
    omega

theorem roundHalfEven_one (n : Nat) : roundHalfEven n 1 = n := by
  unfold roundHalfEven
  simp [Nat.mod_one]

/-- Scaling a quotient below `2^53` up: with enough fuel and room above the
subnormal exponent, `normalize` doubles the numerator until the quotient is in
`[2^52, 2^53)`. -/
theorem normalize_down (f : Nat) : ∀ (k num den : Nat) (e : Int), k ≤ f → 0 < den →
    num < den * 2 ^ 53 → den * 2 ^ 52 ≤ num * 2 ^ k → -1074 ≤ e - k →
    ∃ i, i ≤ k ∧ normalize f num den e = (num * 2 ^ i, den, e - i) ∧
      den * 2 ^ 52 ≤ num * 2 ^ i ∧ num * 2 ^ i < den * 2 ^ 53 := by
  induction f with
  | zero =>
    intro k num den e hk _ hlt hge _
    have : k = 0 := by omega
    subst this
    exact ⟨0, le_rfl, by simp [normalize], by simpa using hge, by simpa using hlt⟩
  | succ f ih =>
    intro k num den e hk hden hlt hge he
    unfold normalize
    by_cases h1 : num < den * 2 ^ 52
    · have hk0 : k ≠ 0 := by
        rintro rfl
        simp at hge
        omega
      obtain ⟨k', rfl⟩ := Nat.exists_eq_succ_of_ne_zero hk0
      have he' : ¬ e ≤ -1074 := by push_cast at he; omega
      simp only [h1, if_true, he', if_false]
      have e2 : 2 ^ k'.succ = 2 * 2 ^ k' := by rw [Nat.pow_succ]; ring
      rw [e2] at hge
      obtain ⟨i, hi, heq, hb1, hb2⟩ := ih k' (2 * num) den (e - 1) (by omega) hden
        (by omega) (by linarith) (by push_cast at he ⊢; omega)
      have e3 : 2 ^ (i + 1) = 2 * 2 ^ i := by rw [Nat.pow_succ]; ring
      refine ⟨i + 1, by omega, ?_, ?_, ?_⟩
      · rw [heq, e3]
        simp only [Prod.mk.injEq, true_and]
        constructor
        · ring
        · push_cast; ring
      · rw [e3]; linarith
      · rw [e3]; linarith
    · have h2 : ¬ den * 2 ^ 53 ≤ num := by omega
      simp only [h1, h2, if_false]
      exact ⟨0, Nat.zero_le _, by simp, by simpa using Nat.le_of_not_lt h1, by simpa using hlt⟩

/-- Scaling a quotient from `2^52` on down: `normalize` doubles the denominator
until the quotient is in `[2^52, 2^53)`. -/
theorem normalize_up (f : Nat) : ∀ (k num den : Nat) (e : Int), k ≤ f →
    den * 2 ^ 52 ≤ num → num < den * 2 ^ 53 * 2 ^ k → e + k ≤ 1024 →
    ∃ j, j ≤ k ∧ normalize f num den e = (num, den * 2 ^ j, e + j) ∧
      den * 2 ^ j * 2 ^ 52 ≤ num ∧ num < den * 2 ^ j * 2 ^ 53 := by
  induction f with
  | zero =>
    intro k num den e hk hge hlt _
    have : k = 0 := by omega
    subst this
    exact ⟨0, le_rfl, by simp [normalize], by simpa using hge, by simpa using hlt⟩
  | succ f ih =>
    intro k num den e hk hge hlt he
    unfold normalize
    have h1 : ¬ num < den * 2 ^ 52 := by omega
    by_cases h2 : den * 2 ^ 53 ≤ num
    · have hk0 : k ≠ 0 := by
        rintro rfl
        simp at hlt
        omega
      obtain ⟨k', rfl⟩ := Nat.exists_eq_succ_of_ne_zero hk0
      have he' : ¬ (1024 : Int) ≤ e := by push_cast at he; omega
      simp only [h1, h2, if_true, he', if_false]
      have e2 : 2 ^ k'.succ = 2 * 2 ^ k' := by rw [Nat.pow_succ]; ring
      rw [e2] at hlt
      obtain ⟨j, hj, heq, hb1, hb2⟩ := ih k' num (2 * den) (e + 1) (by omega)
        (by omega) (by linarith) (by push_cast at he ⊢; omega)
      have e3 : 2 ^ (j + 1) = 2 * 2 ^ j := by rw [Nat.pow_succ]; ring
      refine ⟨j + 1, by omega, ?_, ?_, ?_⟩
      · rw [heq, e3]
        simp only [Prod.mk.injEq, true_and]
        constructor
        · ring
        · push_cast; ring
      · rw [e3]; linarith
      · rw [e3]; linarith
    · simp only [h1, h2, if_false]
      exact ⟨0, Nat.zero_le _, by simp, by simpa using hge, by simpa using Nat.lt_of_not_le h2⟩

theorem roundNE_zero (neg : Bool) (d : Nat) : roundNE neg 0 d = F64.fin neg 0 0 := by
  unfold roundNE
  exact if_pos rfl

/-- Below `2^53` the conversion `float64(n)` is exact: the significand is `n`
shifted up. -/
theorem roundNE_small (neg : Bool) (n : Nat) (hn : n ≠ 0) (h : n < 2 ^ 53) :
    ∃ i : Nat, i ≤ 52 ∧ roundNE neg n 1 = F64.fin neg (n * 2 ^ i) (-(i : Int)) := by
  obtain ⟨i, hi, heq, -, -⟩ := normalize_down 2200 52 n 1 0 (by norm_num) (by norm_num)
    (by omega) (by
      have : 1 ≤ n := Nat.one_le_iff_ne_zero.mpr hn
      nlinarith) (by norm_num)
  refine ⟨i, hi, ?_⟩
  unfold roundNE
  simp only [hn, if_false, heq, roundHalfEven_one, zero_sub]
  rw [if_neg]
  omega

/-- From `2^53` up to `2^64` the conversion `float64(n)` rounds `n` to a
multiple of a power of two that is at most `2^11`. -/
theorem roundNE_large (neg : Bool) (n : Nat) (h1 : 2 ^ 53 ≤ n) (h2 : n < 2 ^ 64) :
    ∃ j : Nat, j ≤ 11 ∧ 2 ^ j * 2 ^ 52 ≤ n ∧
      roundNE neg n 1 = F64.fin neg (roundHalfEven n (2 ^ j)) (j : Int) := by
  obtain ⟨j, hj, heq, hb, -⟩ := normalize_up 2200 11 n 1 0 (by norm_num) (by omega)
    (by omega) (by norm_num)
  have hn : n ≠ 0 := by omega
  refine ⟨j, hj, by simpa using hb, ?_⟩
  unfold roundNE
  simp only [hn, if_false, heq, one_mul, zero_add]
  rw [if_neg]
  omega

/-- The conversion of a non-zero `int64` is finite and not a zero. -/
theorem roundNE_int (neg : Bool) (n : Nat) (hn : n ≠ 0) (hlt : n < 2 ^ 64) :
    ∃ m e, m ≠ 0 ∧ roundNE neg n 1 = F64.fin neg m e := by
  by_cases h : n < 2 ^ 53
  · obtain ⟨i, -, heq⟩ := roundNE_small neg n hn h
    exact ⟨_, _, Nat.mul_ne_zero hn (by positivity), heq⟩
  · obtain ⟨j, -, hb, heq⟩ := roundNE_large neg n (by omega) hlt
    refine ⟨_, _, ?_, heq⟩
    have hge := roundHalfEven_ge n (2 ^ j)
    have hp : 0 < 2 ^ j := Nat.pow_pos (by norm_num)
    have : 0 < n / 2 ^ j := Nat.div_pos (by nlinarith) hp
    omega

theorem natAbs_lt_of_int64 (a : Int) (h : isInt64 a) : a.natAbs < 2 ^ 64 := by
  unfold isInt64 at h
  omega

theorem wrap64_of_int64 (a : Int) (h : isInt64 a) : wrap64 a = a := by
  unfold isInt64 at h
  unfold wrap64
  omega

theorem wrap64_sub_eq_zero (a b : Int) (ha : isInt64 a) (hb : isInt64 b) :
    wrap64 (a - b) = 0 ↔ a = b := by
  unfold isInt64 at ha hb
  unfold wrap64
  omega

theorem diffRate_self_of_ne (a : Int) (h0 : a ≠ 0) (hr : isInt64 a) :
    diffRate a a = (if a < 0 then "-0.00%" else "0.00%") := by
  have hn : a.natAbs ≠ 0 := by omega
  obtain ⟨m, e, hm, hfin⟩ := roundNE_int (decide (a < 0)) a.natAbs hn (natAbs_lt_of_int64 a hr)
  have hz : ofInt (wrap64 (a - a)) = F64.fin false 0 0 := by
    simp only [sub_self]; decide
  unfold diffRate
  rw [hz]
  unfold ofInt
  rw [hfin]
  simp only [F64.div, hm, if_false, zero_mul, roundNE_zero, F64.mul, f100, fmtF2]
  by_cases hneg : a < 0
  · simp only [hneg, decide_True, Bool.xor_true, Bool.not_false, Bool.xor_false, if_true]
    decide
  · simp only [hneg, decide_False, Bool.xor_false, if_false]
    decide

/-! ## Lemmas on the decimal rendering -/

theorem digitChar_ne_minus (k : Nat) (hk : k < 10) : Nat.digitChar k ≠ '-' := by
  interval_cases k <;> decide

theorem toDigitsCore_noMinus (fuel n : Nat) (ds : List Char) (h : NoMinus ds) :
    NoMinus (Nat.toDigitsCore 10 fuel n ds) := by
  induction fuel generalizing n ds with
  | zero => simpa [Nat.toDigitsCore] using h
  | succ f ih =>
    unfold Nat.toDigitsCore
    have hd : NoMinus (Nat.digitChar (n % 10) :: ds) :=
      ⟨_, _, rfl, digitChar_ne_minus _ (Nat.mod_lt _ (by norm_num))⟩
    simp only
    split_ifs
    · exact hd
    · exact ih _ _ hd

theorem natToString_noMinus (n : Nat) : NoMinus (toString n).data := by
  show NoMinus (Nat.toDigitsCore 10 (n + 1) n [])
  unfold Nat.toDigitsCore
  have hd : NoMinus (Nat.digitChar (n % 10) :: []) :=
    ⟨_, _, rfl, digitChar_ne_minus _ (Nat.mod_lt _ (by norm_num))⟩
  simp only
  split_ifs
  · exact hd
  · exact toDigitsCore_noMinus _ _ _ hd

theorem NoMinus.append {l : List Char} (h : NoMinus l) (r : List Char) : NoMinus (l ++ r) := by
  obtain ⟨c, cs, rfl, hc⟩ := h
  exact ⟨c, cs ++ r, rfl, hc⟩

theorem startsWithMinus_of_noMinus (s : String) (h : NoMinus s.data) :
    startsWithMinus s = false := by
  obtain ⟨c, cs, hs, hc⟩ := h
  unfold startsWithMinus
  rw [hs]
  simpa using hc

theorem intToString_noMinus (x : Int) (hx : 0 ≤ x) : NoMinus (toString x).data := by
  obtain ⟨n, rfl⟩ := Int.eq_ofNat_of_zero_le hx
  exact natToString_noMinus n

theorem dec2_noMinus (k : Nat) : NoMinus (dec2 k).data := by
  unfold dec2
  simp only [String.data_append, List.append_assoc]
  exact (natToString_noMinus _).append _

theorem roundNE_signClear (n d : Nat) : (roundNE false n d).SignClear := by
  unfold roundNE
  dsimp only
  split_ifs <;> simp [F64.SignClear]

theorem div_signClear (x : F64) (hx : x.SignClear) (m : Nat) (hm : m ≠ 0) :
    (x.div (F64.fin false m 0)).SignClear := by
  cases x with
  | nan => exact hx.elim
  | inf neg => simp only [F64.SignClear] at hx; subst hx; simp [F64.div, F64.SignClear]
  | fin neg m' e =>
    simp only [F64.SignClear] at hx
    subst hx
    simp only [F64.div, hm, if_false, Bool.xor_false]
    exact roundNE_signClear _ _

theorem fmtF2_noMinus (x : F64) (hx : x.SignClear) : NoMinus (fmtF2 x).data := by
  cases x with
  | nan => exact hx.elim
  | inf neg =>
    simp only [F64.SignClear] at hx; subst hx
    exact ⟨'+', _, rfl, by decide⟩
  | fin neg m e =>
    simp only [F64.SignClear] at hx; subst hx
    simp only [fmtF2, Bool.false_eq_true, if_false, String.data_append]
    exact dec2_noMinus _

/-! ## Lemmas on the conversions -/

theorem roundNE_abs (neg : Bool) (n d : Nat) :
    (roundNE neg n d).abs = roundNE false n d := by
  unfold roundNE
  dsimp only
  split_ifs <;> rfl

/-- Below `2^53` the round trip `int64(float64(x))` is exact. -/
theorem toInt64_ofNat_small (ovf : Int) (n : Nat) (h : n < 2 ^ 53) :
    toInt64 ovf (roundNE false n 1) = n := by
  by_cases hn : n = 0
  · subst hn; rw [roundNE_zero]; simp [toInt64]
  · obtain ⟨i, -, heq⟩ := roundNE_small false n hn h
    rw [heq]
    have h1 : (-(i : Int)).toNat = 0 := by omega
    have h2 : (- -(i : Int)).toNat = i := by omega
    simp only [toInt64, h1, h2, pow_zero, mul_one, Bool.false_eq_true, if_false]
    rw [Nat.mul_div_cancel _ (Nat.pow_pos (by norm_num))]
    rw [if_pos]
    constructor <;> omega

/-- Below `2^63 - 512` the conversion `float64(x)` stays below `2^63`, so that
converting back is defined and gives a non-negative result. -/
theorem toInt64_ofNat_nonneg (ovf : Int) (n : Nat) (h : n < 2 ^ 63 - 512) :
    0 ≤ toInt64 ovf (roundNE false n 1) := by
  by_cases hs : n < 2 ^ 53
  · rw [toInt64_ofNat_small ovf n hs]; omega
  · obtain ⟨j, hj, hb, heq⟩ := roundNE_large false n (by omega) (by omega)
    rw [heq]
    have h1 : (-(j : Int)).toNat = 0 := by omega
    have hpow : 2 ^ j ≤ 2 ^ 11 := Nat.pow_le_pow_right (by norm_num) hj
    have hnear := (roundHalfEven_near n (2 ^ j) (Nat.pow_pos (by norm_num))).1
    have hj10 : j ≤ 10 := by
      by_contra hc
      have : j = 11 := by omega
      subst this
      omega
    have hpow' : 2 ^ j ≤ 2 ^ 10 := Nat.pow_le_pow_right (by norm_num) hj10
    simp only [toInt64, h1, Int.toNat_ofNat, pow_zero, Nat.div_one, Bool.false_eq_true, if_false]
    split_ifs <;> omega

/-! ## The unit formatter -/

/-- The body of `byte2unit` after the magnitude has been taken. -/
theorem byte2unit_eq (ovf x : Int) :
    byte2unit ovf x =
      (if x < 0 then "-" else "") ++
        (let size := toInt64 ovf (roundNE false x.natAbs 1)
         if 1000000000 ≤ size then fmtF2 ((ofInt size).div f1e9) ++ " GB"
         else if 1000000 ≤ size then fmtF2 ((ofInt size).div f1e6) ++ " MB"
         else if 1000 ≤ size then fmtF2 ((ofInt size).div f1e3) ++ " kB"
         else toString size ++ " Byte") := by
  unfold byte2unit
  simp only [ofInt, roundNE_abs]
  by_cases hx : x < 0
  · simp only [hx, decide_True, if_true]
  · simp only [hx, decide_False, Bool.false_eq_true, if_false]
    rw [String.empty_append]

theorem byte2unit_neg (ovf x : Int) (hx : x < 0) :
    byte2unit ovf x = "-" ++ byte2unit ovf (-x) := by
  have h2 : ¬ (-x < 0) := by omega
  rw [byte2unit_eq, byte2unit_eq ovf (-x)]
  simp only [hx, h2, if_true, if_false, Int.natAbs_neg, String.empty_append]

theorem ofInt_signClear (x : Int) (hx : 0 ≤ x) : (ofInt x).SignClear := by
  have h : ¬ x < 0 := by omega
  unfold ofInt
  simp only [h, decide_False]
  exact roundNE_signClear _ _

theorem byte2unit_noMinus (ovf x : Int) (hx : 0 ≤ x) (hb : x < 2 ^ 63 - 512) :
    NoMinus (byte2unit ovf x).data := by
  have h : ¬ x < 0 := by omega
  have hs : 0 ≤ toInt64 ovf (roundNE false x.natAbs 1) :=
    toInt64_ofNat_nonneg ovf x.natAbs (by omega)
  have hc := ofInt_signClear _ hs
  rw [byte2unit_eq]
  simp only [h, if_false, String.empty_append]
  split_ifs
  · rw [String.data_append]
    exact (fmtF2_noMinus _ (div_signClear _ hc _ (by norm_num))).append _
  · rw [String.data_append]
    exact (fmtF2_noMinus _ (div_signClear _ hc _ (by norm_num))).append _
  · rw [String.data_append]
    exact (fmtF2_noMinus _ (div_signClear _ hc _ (by norm_num))).append _
  · rw [String.data_append]
    exact (intToString_noMinus _ hs).append _

/-- Claim C8, amended: for sizes `a` and `b` (non-negative `int64` values in
particular) whose difference is below `2^63 - 512` in magnitude,
`byte2unit (b - a)` begins with a minus sign exactly when `b < a`, and is then
the minus sign followed by `byte2unit (a - b)`; this holds whatever an
out-of-range conversion gives. -/
theorem byte2unit_sign (ovf a b : Int)
    (hd : b - a < 2 ^ 63 - 512) (hd' : a - b < 2 ^ 63 - 512) :
    (startsWithMinus (byte2unit ovf (b - a)) = true ↔ b < a) ∧
    (b < a → byte2unit ovf (b - a) = "-" ++ byte2unit ovf (a - b)) := by
  have hneg : b < a → byte2unit ovf (b - a) = "-" ++ byte2unit ovf (a - b) := by
    intro h
    have := byte2unit_neg ovf (b - a) (by omega)
    rwa [neg_sub] at this
  refine ⟨⟨?_, ?_⟩, hneg⟩
  · intro h
    by_contra hc
    have hn := byte2unit_noMinus ovf (b - a) (by omega) hd
    rw [startsWithMinus_of_noMinus _ hn] at h
    exact Bool.false_ne_true h
  · intro h
    rw [hneg h]
    rfl

theorem byte2unit_sign_witness :
    (startsWithMinus (byte2unit amd64Indefinite (800 - 1000)) = true ↔ (800 : Int) < 1000) ∧
    ((800 : Int) < 1000 →
      byte2unit amd64Indefinite (800 - 1000) = "-" ++ byte2unit amd64Indefinite (1000 - 800)) :=
  byte2unit_sign amd64Indefinite 1000 800 (by decide) (by decide)

/-- Claim C8 as stated fails at the top of the range on amd64: for `a = 0` and
`b = 2^63 - 1` the conversion `float64(b - a)` rounds up to `2^63`, converting
back overflows, and the result begins with a minus sign although `b > a`. -/
theorem byte2unit_sign_overflow :
    (0 : Int) ≤ 9223372036854775807 ∧ isInt64 9223372036854775807 ∧
    ¬ ((9223372036854775807 : Int) < 0) ∧
    byte2unit amd64Indefinite (9223372036854775807 - 0) = "-9223372036854775808 Byte" ∧
    startsWithMinus (byte2unit amd64Indefinite (9223372036854775807 - 0)) = true := by
  decide

/-! ## The two-decimal rendering of a quotient -/

/-- The arithmetic heart of `%.2f` after a division: if `m / Q` is the binary64
quotient of `n / D` (within half a unit of `n * Q / D`, with `D < 2 * Q`) and
`K` is `100 * n / D` rounded away from a tie, then `100 * m / Q` rounds to `K`. -/
theorem round_transfer (n D m Q K : Nat)
    (hm1 : 2 * (m * D) ≤ 2 * (n * Q) + D) (hm2 : 2 * (n * Q) ≤ 2 * (m * D) + D)
    (hK1 : 2 * (K * D) + 200 ≤ 2 * (n * 100) + D) (hK2 : 2 * (n * 100) + 200 ≤ 2 * (K * D) + D)
    (hQ : D < 2 * Q) :
    2 * (K * Q) < 2 * (m * 100) + Q ∧ 2 * (m * 100) < 2 * (K * Q) + Q := by
  have a1 := Nat.mul_le_mul_right Q hK1
  have a2 := Nat.mul_le_mul_right Q hK2
  constructor
  · apply Nat.lt_of_mul_lt_mul_left (a := D)
    nlinarith
  · apply Nat.lt_of_mul_lt_mul_left (a := D)
    nlinarith

/-- Cancelling the common power of two in the bounds of the division. -/
theorem cancel_scale (n D m P Q : Nat) (hD : 0 < D) (hP : 0 < P)
    (n1 : 2 * (m * (D * P)) ≤ 2 * (n * P * Q) + D * P)
    (n2 : 2 * (n * P * Q) ≤ 2 * (m * (D * P)) + D * P)
    (hb : D * P * 2 ^ 52 ≤ n * P * Q) (hn : n < 2 ^ 53) :
    2 * (m * D) ≤ 2 * (n * Q) + D ∧ 2 * (n * Q) ≤ 2 * (m * D) + D ∧ D < 2 * Q := by
  have e1 : 2 * (m * (D * P)) = P * (2 * (m * D)) := by ring
  have e2 : 2 * (n * P * Q) + D * P = P * (2 * (n * Q) + D) := by ring
  have e3 : 2 * (m * (D * P)) + D * P = P * (2 * (m * D) + D) := by ring
  have e4 : 2 * (n * P * Q) = P * (2 * (n * Q)) := by ring
  have e5 : D * P * 2 ^ 52 = P * (D * 2 ^ 52) := by ring
  have e6 : n * P * Q = P * (n * Q) := by ring
  rw [e1, e2] at n1
  rw [e4, e3] at n2
  rw [e5, e6] at hb
  have hb' : D * 2 ^ 52 ≤ n * Q := Nat.le_of_mul_le_mul_left hb hP
  refine ⟨Nat.le_of_mul_le_mul_left n1 hP, Nat.le_of_mul_le_mul_left n2 hP, ?_⟩
  by_contra hc
  have h1 : 2 * Q ≤ D := by omega
  have hQ : 0 < Q := by
    rcases Nat.eq_zero_or_pos Q with h | h
    · subst h
      simp at hb'
      omega
    · exact h
  have s1 : n * Q < 2 ^ 53 * Q := Nat.mul_lt_mul_of_pos_right hn hQ
  omega

/-- Rounding a multiple-of-200 quotient off its tie leaves a margin of 200. -/
theorem round_margin (n c K : Nat)
    (k1 : 2 * (K * (200 * c)) < 2 * (n * 100) + 200 * c)
    (k2 : 2 * (n * 100) < 2 * (K * (200 * c)) + 200 * c) :
    2 * (K * (200 * c)) + 200 ≤ 2 * (n * 100) + 200 * c ∧
    2 * (n * 100) + 200 ≤ 2 * (K * (200 * c)) + 200 * c := by
  have e1 : K * (200 * c) = 200 * (K * c) := by ring
  rw [e1] at k1 k2 ⊢
  generalize K * c = X at *
  omega


/-- The division by a unit and the verb `%.2f`: for `D ≤ n < 2^53` with `D` a
multiple of 200, off the ties, the text is `n / D` rounded to two decimals. -/
theorem fmtF2_div (n D : Nat) (hD : 200 ∣ D) (hD0 : 0 < D) (hle : D ≤ n) (hn : n < 2 ^ 53)
    (htie : 2 * (n * 100 % D) ≠ D) :
    fmtF2 ((roundNE false n 1).div (F64.fin false D 0)) = dec2 (roundHalfEven (n * 100) D) := by
  have hn0 : n ≠ 0 := by omega
  obtain ⟨i, -, heq⟩ := roundNE_small false n hn0 hn
  have hP : 0 < 2 ^ i := Nat.pow_pos (by norm_num)
  have hD' : D ≠ 0 := by omega
  have h1 : (-(i : Int) - 0).toNat = 0 := by omega
  have h2 : (0 - -(i : Int)).toNat = i := by omega
  rw [heq]
  simp only [F64.div, hD', if_false, h1, h2, pow_zero, mul_one, Bool.xor_false]
  have c1 : n * 2 ^ i < D * 2 ^ i * 2 ^ 53 := by
    have t1 : n * 2 ^ i < 2 ^ 53 * 2 ^ i := Nat.mul_lt_mul_of_pos_right hn hP
    have t2 : 1 * (2 ^ i * 2 ^ 53) ≤ D * (2 ^ i * 2 ^ 53) := Nat.mul_le_mul_right _ hD0
    calc n * 2 ^ i < 2 ^ 53 * 2 ^ i := t1
      _ = 1 * (2 ^ i * 2 ^ 53) := by ring
      _ ≤ D * (2 ^ i * 2 ^ 53) := t2
      _ = D * 2 ^ i * 2 ^ 53 := by ring
  have c2 : D * 2 ^ i * 2 ^ 52 ≤ n * 2 ^ i * 2 ^ 52 :=
    Nat.mul_le_mul_right _ (Nat.mul_le_mul_right _ hle)
  obtain ⟨I, -, hnorm, hb1, -⟩ := normalize_down 2200 52 (n * 2 ^ i) (D * 2 ^ i) 0
    (by norm_num) (Nat.mul_pos hD0 hP) c1 c2 (by norm_num)
  have hQ : 0 < 2 ^ I := Nat.pow_pos (by norm_num)
  have hnum : n * 2 ^ i ≠ 0 := Nat.mul_ne_zero hn0 (by omega)
  have h3 : (0 - (I : Int)).toNat = 0 := by omega
  have h4 : (-(0 - (I : Int))).toNat = I := by omega
  have hov : ¬ (971 < 0 - (I : Int) ∨ 0 - (I : Int) = 971 ∧
      2 ^ 53 ≤ roundHalfEven (n * 2 ^ i * 2 ^ I) (D * 2 ^ i)) := by omega
  unfold roundNE
  simp only [hnum, if_false, hnorm, hov]
  simp only [fmtF2, Bool.false_eq_true, if_false, h3, h4, pow_zero, mul_one, String.empty_append]
  congr 1
  obtain ⟨n1, n2⟩ := roundHalfEven_near (n * 2 ^ i * 2 ^ I) (D * 2 ^ i) (Nat.mul_pos hD0 hP)
  obtain ⟨hm1, hm2, hQD⟩ := cancel_scale n D _ (2 ^ i) (2 ^ I) hD0 hP n1 n2 hb1 hn
  obtain ⟨k1, k2⟩ := roundHalfEven_near_strict (n * 100) D hD0 htie
  obtain ⟨c, rfl⟩ := hD
  obtain ⟨hK1, hK2⟩ := round_margin n c _ k1 k2
  obtain ⟨g1, g2⟩ := round_transfer n (200 * c) _ (2 ^ I) _ hm1 hm2 hK1 hK2 hQD
  exact roundHalfEven_unique _ _ _ hQ g1 g2

theorem ofInt_natCast (n : Nat) : ofInt (n : Int) = roundNE false n 1 := by
  have h : ¬ ((n : Int) < 0) := by omega
  unfold ofInt
  simp only [h, decide_False, Int.natAbs_ofNat]

/-- Claim C3, amended: for every size `n` below `2^53` that is not exactly
halfway between two numerals with two decimals of its unit, `byte2unit n` is
the numeral of `n` followed by ` Byte` below 1000, and otherwise `n` over
`10^3`, `10^6` or `10^9` rounded to two decimals followed by ` kB`, ` MB` or
` GB`, with the thresholds at `10^3`, `10^6` and `10^9` inclusive. -/
theorem byte2unit_rounds (ovf : Int) (n : Nat) (hn : n < 2 ^ 53) (ht : atTie n = false) :
    byte2unit ovf n = byte2unitSpec n := by
  have h0 : ¬ ((n : Int) < 0) := by omega
  have hs := toInt64_ofNat_small ovf n hn
  rw [byte2unit_eq]
  simp only [h0, if_false, Int.natAbs_ofNat, hs, String.empty_append, ofInt_natCast]
  unfold atTie unitDivisor at ht
  unfold byte2unitSpec
  by_cases h1 : n < 1000
  · have a1 : ¬ ((1000000000 : Int) ≤ n) := by omega
    have a2 : ¬ ((1000000 : Int) ≤ n) := by omega
    have a3 : ¬ ((1000 : Int) ≤ n) := by omega
    simp only [a1, a2, a3, h1, if_false, if_true]
    rfl
  · by_cases h2 : n < 1000000
    · have a1 : ¬ ((1000000000 : Int) ≤ n) := by omega
      have a2 : ¬ ((1000000 : Int) ≤ n) := by omega
      have a3 : (1000 : Int) ≤ n := by omega
      simp only [h1, h2, if_false, if_true, decide_eq_false_iff_not] at ht
      simp only [a1, a2, a3, h1, h2, if_false, if_true, f1e3]
      rw [fmtF2_div n 1000 (by norm_num) (by norm_num) (by omega) hn ht]
    · by_cases h3 : n < 1000000000
      · have a1 : ¬ ((1000000000 : Int) ≤ n) := by omega
        have a2 : (1000000 : Int) ≤ n := by omega
        simp only [h1, h2, h3, if_false, if_true, decide_eq_false_iff_not] at ht
        simp only [a1, a2, h1, h2, h3, if_false, if_true, f1e6]
        rw [fmtF2_div n 1000000 (by norm_num) (by norm_num) (by omega) hn ht]
      · have a1 : (1000000000 : Int) ≤ n := by omega
        simp only [h1, h2, h3, if_false, decide_eq_false_iff_not] at ht
        simp only [a1, h1, h2, h3, if_false, if_true, f1e9]
        rw [fmtF2_div n 1000000000 (by norm_num) (by norm_num) (by omega) hn ht]

set_option maxRecDepth 100000 in
theorem byte2unit_rounds_witness :
    byte2unit amd64Indefinite (999 : Nat) = "999 Byte" ∧
    byte2unit amd64Indefinite (1000 : Nat) = "1.00 kB" ∧
    byte2unit amd64Indefinite (999999 : Nat) = "1000.00 kB" ∧
    byte2unit amd64Indefinite (1000000 : Nat) = "1.00 MB" ∧
    byte2unit amd64Indefinite (1000000000 : Nat) = "1.00 GB" :=
  ⟨(byte2unit_rounds _ 999 (by decide) (by decide)).trans (by decide),
   (byte2unit_rounds _ 1000 (by decide) (by decide)).trans (by decide),
   (byte2unit_rounds _ 999999 (by decide) (by decide)).trans (by decide),
   (byte2unit_rounds _ 1000000 (by decide) (by decide)).trans (by decide),
   (byte2unit_rounds _ 1000000000 (by decide) (by decide)).trans (by decide)⟩

set_option maxRecDepth 100000 in
/-- Claim C3 as stated fails: for `n = 9223372036004999999` the exact quotient
`n / 10^9 = 9223372036.004999999` is nearest to `9223372036.00`, yet
`float64(n)` rounds `n` up by 193 past the halfway point and `byte2unit` gives
`9223372036.01 GB`; and at the tie `n = 1015`, where `1.015` rounds to `1.02`,
it gives `1.01 kB`. -/
theorem byte2unit_rounds_fails :
    (0 : Int) ≤ 9223372036004999999 ∧ isInt64 9223372036004999999 ∧
    atTie 9223372036004999999 = false ∧
    byte2unitSpec 9223372036004999999 = "9223372036.00 GB" ∧
    byte2unit amd64Indefinite (9223372036004999999 : Nat) = "9223372036.01 GB" ∧
    byte2unit amd64Indefinite (9223372036004999999 : Nat) ≠
      byte2unitSpec 9223372036004999999 ∧
    byte2unitSpec 1015 = "1.02 kB" ∧
    byte2unit amd64Indefinite (1015 : Nat) = "1.01 kB" := by
  decide

/-! ## The rate formatter -/

/-- Claim C7, amended: for every positive `int64` size `a`, `diffRate a a` is
`0.00%`. -/
theorem diffRate_self (a : Int) (h0 : 0 < a) (hr : a < 2 ^ 63) : diffRate a a = "0.00%" := by
  have h := diffRate_self_of_ne a (by omega) ⟨by omega, hr⟩
  have hn : ¬ a < 0 := by omega
  simpa only [hn, if_false] using h

theorem diffRate_self_witness : diffRate 3500 3500 = "0.00%" :=
  diffRate_self 3500 (by decide) (by decide)

/-- Claim C7 as stated fails at `a = 0`: the quotient `0 / 0` is a NaN and
`diffRate 0 0` is `NaN%`. -/
theorem diffRate_zero_zero :
    (0 : Int) ≤ 0 ∧ diffRate 0 0 = "NaN%" ∧ diffRate 0 0 ≠ "0.00%" := by
  decide

/-! ## The classifier -/

/-- A search is a match at one of the tails, for an expression whose match does
not depend on the offset. -/
theorem search_eq_any (r : Re) (f : List Char → Bool)
    (h : ∀ i s, r.run i s (fun _ _ => true) = f s) (i : Nat) (s : List Char) :
    r.search i s = s.tails.any f := by
  induction s generalizing i with
  | nil => simp [Re.search, h]
  | cons x t ih => simp [Re.search, h, ih]

theorem jpeg_run (i : Nat) (s : List Char) :
    jpegRegexp.run i s (fun _ _ => true) =
      (matchesAnyCase s ".jpg".data || matchesAnyCase s ".jpeg".data ||
        matchesAnyCase s ".jpe".data) := by
  have e1 : ".jpg".data = ['.', 'j', 'p', 'g'] := rfl
  have e2 : ".jpeg".data = ['.', 'j', 'p', 'e', 'g'] := rfl
  have e3 : ".jpe".data = ['.', 'j', 'p', 'e'] := rfl
  have u0 : '.'.toUpper = '.' := by decide
  have u1 : 'j'.toUpper = 'J' := by decide
  have u2 : 'p'.toUpper = 'P' := by decide
  have u3 : 'e'.toUpper = 'E' := by decide
  have u4 : 'g'.toUpper = 'G' := by decide
  rw [e1, e2, e3]
  rcases s with _ | ⟨c1, _ | ⟨c2, _ | ⟨c3, _ | ⟨c4, _ | ⟨c5, _ | ⟨c6, s⟩⟩⟩⟩⟩⟩ <;>
    simp [jpegRegexp, Re.run, matchesAnyCase, sameLetter, u0, u1, u2, u3, u4]
  all_goals
    rw [Bool.eq_iff_iff]
    simp only [Bool.and_eq_true, Bool.or_eq_true, beq_iff_eq, decide_eq_true_eq]

theorem png_run (i : Nat) (s : List Char) :
    pngRegexp.run i s (fun _ _ => true) = matchesAnyCase s ".png".data := by
  have e1 : ".png".data = ['.', 'p', 'n', 'g'] := rfl
  have u0 : '.'.toUpper = '.' := by decide
  have u1 : 'p'.toUpper = 'P' := by decide
  have u2 : 'n'.toUpper = 'N' := by decide
  have u3 : 'g'.toUpper = 'G' := by decide
  rw [e1]
  rcases s with _ | ⟨c1, _ | ⟨c2, _ | ⟨c3, _ | ⟨c4, _ | ⟨c5, s⟩⟩⟩⟩⟩ <;>
    simp [pngRegexp, Re.run, matchesAnyCase, sameLetter, u0, u1, u2, u3]
  all_goals
    rw [Bool.eq_iff_iff]
    simp only [Bool.and_eq_true, Bool.or_eq_true, beq_iff_eq, decide_eq_true_eq]

theorem isJPEG_eq (p : String) :
    isJPEG p = (endsWithAnyCase p ".jpg" || endsWithAnyCase p ".jpeg" ||
      endsWithAnyCase p ".jpe") := by
  unfold isJPEG Re.matchString endsWithAnyCase
  rw [search_eq_any jpegRegexp _ jpeg_run]
  induction p.data.tails with
  | nil => rfl
  | cons t ts ih =>
    simp only [List.any_cons, ih]
    cases matchesAnyCase t ".jpg".data <;> cases matchesAnyCase t ".jpeg".data <;>
      cases matchesAnyCase t ".jpe".data <;> simp

theorem isPNG_eq (p : String) : isPNG p = endsWithAnyCase p ".png" := by
  unfold isPNG Re.matchString endsWithAnyCase
  rw [search_eq_any pngRegexp _ png_run]

/-- A text that is `.png` in some mix of cases is four characters long and has
the dot first and a `g` last. -/
theorem matches_png_shape (t : List Char) (h : matchesAnyCase t ".png".data = true) :
    ∃ c2 c3 c4, t = ['.', c2, c3, c4] ∧ (c4 = 'g' ∨ c4 = 'G') ∧ (c2 = 'p' ∨ c2 = 'P') := by
  have e1 : ".png".data = ['.', 'p', 'n', 'g'] := rfl
  rw [e1] at h
  rcases t with _ | ⟨c1, _ | ⟨c2, _ | ⟨c3, _ | ⟨c4, _ | ⟨c5, s⟩⟩⟩⟩⟩ <;>
    simp [matchesAnyCase, sameLetter] at h
  obtain ⟨h1, h2, -, h4⟩ := h
  exact ⟨c2, c3, c4, by rw [h1], h4, h2⟩

theorem matches_jpeg_shape (t : List Char)
    (h : (matchesAnyCase t ".jpg".data || matchesAnyCase t ".jpeg".data ||
      matchesAnyCase t ".jpe".data) = true) :
    (∃ c2 c3 c4, t = ['.', c2, c3, c4] ∧ (c2 = 'j' ∨ c2 = 'J')) ∨
    (∃ c2 c3 c4 c5, t = ['.', c2, c3, c4, c5] ∧ (c2 = 'j' ∨ c2 = 'J')) := by
  have e1 : ".jpg".data = ['.', 'j', 'p', 'g'] := rfl
  have e2 : ".jpeg".data = ['.', 'j', 'p', 'e', 'g'] := rfl
  have e3 : ".jpe".data = ['.', 'j', 'p', 'e'] := rfl
  rw [e1, e2, e3] at h
  rcases t with _ | ⟨c1, _ | ⟨c2, _ | ⟨c3, _ | ⟨c4, _ | ⟨c5, _ | ⟨c6, s⟩⟩⟩⟩⟩⟩ <;>
    simp [matchesAnyCase, sameLetter] at h
  · left
    refine ⟨c2, c3, c4, ?_, ?_⟩
    · rcases h with h | h <;> rw [h.1]
    · rcases h with h | h <;> exact h.2.1
  · right
    exact ⟨c2, c3, c4, c5, by rw [h.1], h.2.1⟩

theorem not_jpeg_and_png (p : String) : ¬ (isJPEG p = true ∧ isPNG p = true) := by
  rintro ⟨hj, hp⟩
  unfold isJPEG Re.matchString at hj
  unfold isPNG Re.matchString at hp
  rw [search_eq_any jpegRegexp _ jpeg_run, List.any_eq_true] at hj
  rw [search_eq_any pngRegexp _ png_run, List.any_eq_true] at hp
  obtain ⟨t, ht, hjt⟩ := hj
  obtain ⟨t', ht', hpt⟩ := hp
  rw [List.mem_tails] at ht ht'
  obtain ⟨d2, d3, d4, rfl, -, hd2⟩ := matches_png_shape t' hpt
  rcases matches_jpeg_shape t hjt with ⟨c2, c3, c4, rfl, hc2⟩ | ⟨c2, c3, c4, c5, rfl, hc2⟩
  · have hs := List.suffix_of_suffix_length_le ht ht' (by simp)
    have := hs.eq_of_length (by simp)
    simp only [List.cons.injEq, true_and] at this
    obtain ⟨rfl, -⟩ := this
    rcases hc2 with rfl | rfl <;> rcases hd2 with h | h <;> exact absurd h (by decide)
  · have hs := List.suffix_of_suffix_length_le ht' ht (by simp)
    have h2 : ['.', d2, d3, d4] <:+ [c2, c3, c4, c5] := by
      rcases List.suffix_cons_iff.mp hs with h | h
      · simp at h
      · exact h
    have := h2.eq_of_length (by simp)
    simp only [List.cons.injEq] at this
    obtain ⟨rfl, -⟩ := this
    rcases hc2 with h | h <;> exact absurd h (by decide)

/-- Claim C4: `isJPEG` holds exactly of the paths that end with `.jpg`, `.jpeg`
or `.jpe` in any mix of cases, `isPNG` exactly of those that end with `.png` in
any mix of cases; no path is both; and the listed examples classify as
claimed. -/
theorem classifier_spec (p : String) :
    (isJPEG p = true ↔
      endsWithAnyCase p ".jpg" = true ∨ endsWithAnyCase p ".jpeg" = true ∨
        endsWithAnyCase p ".jpe" = true) ∧
    (isPNG p = true ↔ endsWithAnyCase p ".png" = true) ∧
    ¬ (isJPEG p = true ∧ isPNG p = true) ∧
    (isJPEG "a.JPG" = true ∧ isJPEG "a.jpeg" = true ∧ isJPEG "a.jpe" = true ∧
      isPNG "a.png" = true ∧ isPNG "a.PNG" = true) ∧
    (isJPEG "a.gif" = false ∧ isPNG "a.gif" = false ∧ isJPEG "a.jp" = false ∧
      isPNG "a.jp" = false ∧ isJPEG "readme.md" = false ∧ isPNG "readme.md" = false) := by
  refine ⟨?_, ?_, not_jpeg_and_png p, by decide, by decide⟩
  · rw [isJPEG_eq]
    simp only [Bool.or_eq_true, or_assoc]
  · rw [isPNG_eq]

/-! ## The tree scanner -/

theorem skipDir_run_succ (i : Nat) (s : List Char) :
    skipDirRegexp.run (i + 1) s (fun _ _ => true) = false := by
  simp [skipDirRegexp, Re.run]

theorem skipDir_search_succ (i : Nat) (s : List Char) : skipDirRegexp.search (i + 1) s = false := by
  induction s generalizing i with
  | nil => rw [Re.search, skipDir_run_succ]
  | cons x t ih => rw [Re.search, skipDir_run_succ, ih]; rfl

/-- The pattern `^\..+` matches exactly the names that are a dot followed by a
character other than a line feed. -/
theorem skipDir_matches (n : String) : skipDirRegexp.matchString n = hiddenName n := by
  unfold Re.matchString hiddenName
  rcases n.data with _ | ⟨c1, _ | ⟨c2, s⟩⟩
  · simp [Re.search, skipDirRegexp, Re.run]
  · have h := skipDir_search_succ 0 []
    simp only [zero_add] at h
    simp [Re.search, skipDirRegexp, Re.run, plusLoop, h]
  · have h := skipDir_search_succ 0 (c2 :: s)
    simp only [zero_add] at h
    rw [Re.search, h]
    simp [skipDirRegexp, Re.run, plusLoop]


theorem callback_file (path : List String) (name : String) (e : Option String)
    (s : List String) :
    callback path (some ⟨name, false⟩) e s =
      .ok (none, s ++ (if isJPEG (relOf path) || isPNG (relOf path) then [relOf path] else [])) := by
  unfold callback
  by_cases h : (isJPEG (relOf path) || isPNG (relOf path)) = true
  · simp [h]
  · simp [h]

theorem callback_dir (path : List String) (name : String) (e : Option String)
    (s : List String) :
    callback path (some ⟨name, true⟩) e s =
      .ok (if hiddenName name then some .skipDir else none, s) := by
  unfold callback
  simp only [if_true, skipDir_matches]
  by_cases h : hiddenName name = true
  · simp [h]
  · simp [h]

mutual
/-- Below a pruned directory nothing is kept. -/
theorem leaves_pruned (dirs path : List String) (hd : dirs.all (fun d => !hiddenName d) = false) :
    ∀ e : Entry, (leaves dirs path e).filter keeps = []
  | .file _ => by
    simp [leaves, keeps, hd]
  | .broken _ _ => by simp [leaves]
  | .dir name _ children => by
    rw [leaves]
    exact leavesList_pruned (dirs ++ [name]) path (by simp [List.all_append, hd]) children
theorem leavesList_pruned (dirs path : List String)
    (hd : dirs.all (fun d => !hiddenName d) = false) :
    ∀ l : List Entry, (leavesList dirs path l).filter keeps = []
  | [] => by simp [leavesList]
  | c :: rest => by
    rw [leavesList, List.filter_append, leaves_pruned dirs _ hd c,
      leavesList_pruned dirs path hd rest]
    rfl
end

mutual
/-- When it meets no error on the way, `walk` adds the kept entries below the
entry to the image list, and returns at most `SkipDir`, for a pruned
directory. -/
theorem walk_walkable (dirs path : List String)
    (hd : dirs.all (fun d => !hiddenName d) = true) :
    ∀ (e : Entry) (s : List String), walkable e = true →
      ∃ r, stopsWalk e r = false ∧
        walk callback path e s =
          .ok (r, s ++ ((leaves dirs path e).filter keeps).map fun x => relOf x.2)
  | .file name, s, _ => by
    refine ⟨none, rfl, ?_⟩
    rw [walk, callback_file, leaves]
    by_cases h : (isJPEG (relOf path) || isPNG (relOf path)) = true
    · simp [keeps, hd, h]
    · simp [keeps, hd, h]
  | .broken _ _, _, h => by simp [walkable] at h
  | .dir name readErr children, s, h => by
    rw [walk, callback_dir, leaves]
    by_cases hh : hiddenName name = true
    · refine ⟨some .skipDir, by simp [stopsWalk], ?_⟩
      rw [leavesList_pruned (dirs ++ [name]) path (by simp [List.all_append, hh]) children]
      simp [hh]
    · rw [walkable, Bool.or_eq_true, Bool.and_eq_true] at h
      obtain ⟨h1, h2⟩ := h.resolve_left hh
      have hr : readErr = none := by simpa using h1
      subst hr
      have hd' : (dirs ++ [name]).all (fun d => !hiddenName d) = true := by
        simp only [List.all_append, hd, Bool.true_and]
        simpa using hh
      refine ⟨none, rfl, ?_⟩
      simp only [hh, if_false]
      exact walkNames_walkable (dirs ++ [name]) path hd' children s h2
/-- When it meets no error on the way, the loop of `walk` adds the kept entries
below the siblings, in order, and returns no error. -/
theorem walkNames_walkable (dirs path : List String)
    (hd : dirs.all (fun d => !hiddenName d) = true) :
    ∀ (l : List Entry) (s : List String), walkableList l = true →
      walkNames callback path l s =
        .ok (none, s ++ ((leavesList dirs path l).filter keeps).map fun x => relOf x.2)
  | [], s, _ => by simp [walkNames, leavesList]
  | c :: rest, s, h => by
    rw [walkableList, Bool.and_eq_true] at h
    obtain ⟨r, hr, hw⟩ := walk_walkable dirs (path ++ [c.name]) hd c s h.1
    rw [walkNames, hw]
    simp only [hr]
    rw [walkNames_walkable dirs path hd rest _ h.2, leavesList]
    simp
end

/-- Claim C5, amended: on a tree walked without error (no failure of `Lstat` on
an entry the walk visits, no failure to read a directory it descends into)
`makeImageList` returns, in the order of the walk, exactly the root-relative
paths of the non-directory entries classified JPEG or PNG that have no directory
above them, the root included, whose name is a dot followed by a character other
than a line feed: every such directory is pruned with everything under it,
whatever lies there; it prints nothing. -/
theorem makeImageList_walkable (root : Entry) (h : walkable root = true) :
    makeImageList root = .ok (expectedImages root, []) := by
  obtain ⟨r, hr, hw⟩ := walk_walkable [] [] rfl root [] h
  unfold makeImageList Walk expectedImages
  rw [hw]
  by_cases hs : r = some .skipDir
  · simp [hs]
  · have hn : r = none := by
      cases root <;> cases r <;> simp_all [stopsWalk]
    simp [hn]

/-- The sample tree: the `.git` directory and the `.hidden` directory two levels
down are pruned with what they hold, the entries that would fail included, and
the other directories are traversed. -/
theorem makeImageList_walkable_witness :
    walkable sampleTree = true ∧
    makeImageList sampleTree = .ok (["a.png", "sub/deep/B.JPEG"], []) :=
  ⟨by decide, (makeImageList_walkable sampleTree (by decide)).trans (by rfl)⟩

/-- Claim C5 as stated fails in two ways: a root whose own name is a dot followed
by more is pruned itself, so that nothing below it is listed; and a directory
whose name is a dot followed by a line feed is not pruned. -/
theorem makeImageList_dot_cases :
    (walkable (.dir ".hidden" none [.file "a.png"]) = true ∧
      claimedImages (.dir ".hidden" none [.file "a.png"]) = ["a.png"] ∧
      makeImageList (.dir ".hidden" none [.file "a.png"]) = .ok ([], [])) ∧
    (walkable (.dir "." none [.dir ".\nx" none [.file "a.png"]]) = true ∧
      claimedImages (.dir "." none [.dir ".\nx" none [.file "a.png"]]) = [] ∧
      makeImageList (.dir "." none [.dir ".\nx" none [.file "a.png"]]) =
        .ok ([".\nx/a.png"], [])) :=
  ⟨⟨by decide, by decide, rfl⟩, ⟨by decide, by decide, rfl⟩⟩

/-! ## The aggregator -/

set_option maxRecDepth 100000 in
/-- Claim C1 fails on the code: the two additions to the totals sit after
`mutex.Unlock()`. With two images measured (1000, 800) and (500, 400), let the
first goroutine load `totalBeforeSize`, the second run to its end, and the first
store its sum: every goroutine is done, the measurements sum to 1500 and 1200,
and `totalBeforeSize` is 1000. -/
theorem totals_lost_update :
    joined (launchAndRun amd64Indefinite twoFiles Run.start ["a.png", "b.png"]
      (overlappingSchedule 2)).2 = true ∧
    ((launchAndRun amd64Indefinite twoFiles Run.start ["a.png", "b.png"]
      (overlappingSchedule 2)).2.map fun g => (g.beforeSize, g.afterSize)) =
      [(1000, 800), (500, 400)] ∧
    (launchAndRun amd64Indefinite twoFiles Run.start ["a.png", "b.png"]
      (overlappingSchedule 2)).1.totalBeforeSize = 1000 ∧
    (launchAndRun amd64Indefinite twoFiles Run.start ["a.png", "b.png"]
      (overlappingSchedule 2)).1.totalAfterSize = 1200 := by
  decide

set_option maxRecDepth 100000 in
/-- When the goroutines do not overlap the totals are the sums: the same two
images under the serial schedule. -/
theorem totals_serial_run :
    joined (launchAndRun amd64Indefinite twoFiles Run.start ["a.png", "b.png"]
      (serialSchedule 2)).2 = true ∧
    (launchAndRun amd64Indefinite twoFiles Run.start ["a.png", "b.png"]
      (serialSchedule 2)).1.totalBeforeSize = 1500 ∧
    (launchAndRun amd64Indefinite twoFiles Run.start ["a.png", "b.png"]
      (serialSchedule 2)).1.totalAfterSize = 1200 := by
  decide

set_option maxRecDepth 100000 in
/-- Claim C6 fails on the code by the defect of claim C1: with the three images
of the example and the first goroutine overlapping the others, `main` ships a
table whose total row is computed from 1000 and 3200 instead of the sums 3500
and 3200. -/
theorem report_lost_update :
    (commandsOf (main amd64Indefinite threeFiles
      (overlappingSchedule 3 ++ mainTurns)).events).getLast? =
      some ("hub", ["pull-request", "-m",
        "[imgcmp] Optimize images\n\n## Successfully optimized\n" ++
        "Your image file size has been reduced by **220.00%** (**2.20 kB**)\n\n" ++
        "<details>\n\n<summary>details</summary>\n\n" ++
        "|File Name|Before|After|Diff (size)|Diff (rate)|\n|:---|---:|---:|---:|---:|\n" ++
        "|a.png|1.00 kB|800 Byte|-200 Byte|-20.00%|\n" ++
        "|b.png|2.00 kB|2.00 kB|0 Byte|0.00%|\n" ++
        "|c.png|500 Byte|400 Byte|-100 Byte|-20.00%|\n" ++
        "|Total|1.00 kB|3.20 kB|2.20 kB|220.00%|\n\n</details>"]) ∧
    tableRow amd64Indefinite "Total" 3500 3200 = "|Total|3.50 kB|3.20 kB|-300 Byte|-8.57%|" := by
  decide

set_option maxRecDepth 100000 in
/-- When the goroutines do not overlap, the table of the example is the one the
specification describes. -/
theorem report_serial_run :
    (commandsOf (main amd64Indefinite threeFiles
      (serialSchedule 3 ++ mainTurns)).events).getLast? =
      some ("hub", ["pull-request", "-m",
        "[imgcmp] Optimize images\n\n## Successfully optimized\n" ++
        "Your image file size has been reduced by **-8.57%** (**-300 Byte**)\n\n" ++
        "<details>\n\n<summary>details</summary>\n\n" ++
        "|File Name|Before|After|Diff (size)|Diff (rate)|\n|:---|---:|---:|---:|---:|\n" ++
        "|a.png|1.00 kB|800 Byte|-200 Byte|-20.00%|\n" ++
        "|b.png|2.00 kB|2.00 kB|0 Byte|0.00%|\n" ++
        "|c.png|500 Byte|400 Byte|-100 Byte|-20.00%|\n" ++
        "|Total|3.50 kB|3.20 kB|-300 Byte|-8.57%|\n\n</details>"]) := by
  decide

/-! ## Failures of the file system -/

/-- Claim C9 fails on the code: when `Lstat` fails on an entry the callback is
called without file info and dereferences it, so that `makeImageList` panics
with the list lost; and when a directory cannot be read the callback ignores the
error, so that nothing is reported. -/
theorem makeImageList_walk_failures :
    makeImageList (.dir "." none
      [.file "a.png", .broken "b.png" "lstat b.png: permission denied", .file "c.png"]) =
      .error nilDeref ∧
    makeImageList (.broken "." "lstat .: no such file or directory") = .error nilDeref ∧
    makeImageList (.dir "." none
      [.file "a.png", .dir "d" (some "open d: permission denied") [.file "x.png"],
       .file "z.png"]) = .ok (["a.png", "z.png"], []) :=
  ⟨rfl, rfl, rfl⟩

/-- Claim C10 fails on the code: when the file cannot be opened `fileSize`
prints the error, prints the error of `Stat` on the nil file, and panics on
`info.Size()`; when `Stat` fails it prints the error and panics. It returns no
size in either case, and the panic is the end of the process. -/
theorem fileSize_failures (path msg : String) :
    fileSize (fun _ => .openErr msg) Run.start path =
      (⟨[.println msg, .println "invalid argument", .panic nilDeref], .dying⟩, none) ∧
    fileSize (fun _ => .statErr msg) Run.start path =
      (⟨[.println msg, .panic nilDeref], .dying⟩, none) ∧
    (fileSize (fun _ => .openErr msg) Run.start path).1.abort =
      ⟨[.println msg, .println "invalid argument", .panic nilDeref, .exit 2], .dead⟩ ∧
    (fileSize (fun _ => .statErr msg) Run.start path).1.abort =
      ⟨[.println msg, .panic nilDeref, .exit 2], .dead⟩ :=
  ⟨rfl, rfl, rfl, rfl⟩

/-! ## The publisher -/

theorem stepG_done (ovf : Int) (w : World) (sh : Shared) (g : Goroutine) (h : g.pc = .done) :
    stepG ovf w sh g = (sh, g) := by
  unfold stepG
  by_cases hd : sh.run.status = .dead
  · simp [hd]
  · simp [hd, h]

/-- Goroutines that are done do not move. -/
theorem stepAt_joined (ovf : Int) (w : World) (sh : Shared) (gs : List Goroutine)
    (h : joined gs = true) (i : Nat) : stepAt ovf w (sh, gs) i = (sh, gs) := by
  induction gs generalizing i with
  | nil => simp [stepAt]
  | cons g gs ih =>
    simp only [joined, List.all_cons, Bool.and_eq_true, decide_eq_true_eq] at h
    cases i with
    | zero => simp [stepAt, stepG_done ovf w sh g h.1]
    | succ i => simp [stepAt, ih (by simpa [joined] using h.2) i]

theorem abort_of_not_dying (r : Run) (h : r.status ≠ .dying) : r.abort = r := by
  unfold Run.abort
  cases hs : r.status <;> simp_all

theorem stmt_status (cmdErr : String → List String → Option String) (r : Run) (s : Stmt)
    (h : r.status ≠ .dying) : (r.stmt cmdErr s).status ≠ .dying := by
  cases s with
  | println t =>
    simp only [Run.stmt, Run.println]
    split_ifs <;> simpa using h
  | execCommand c a =>
    simp only [Run.stmt, Run.execCommand]
    split_ifs
    · exact h
    · cases cmdErr c a with
      | none => simpa using h
      | some e =>
        simp only [Run.println, Run.exit]
        split_ifs
        simp

/-- After the join, in a process without a panic, only `main` moves. -/
theorem stepMain_keeps (ovf : Int) (w : World) (st : Shared × List Goroutine)
    (hj : joined st.2 = true) (hs : st.1.run.status ≠ .dying) :
    joined (stepMain ovf w st).2 = true ∧ (stepMain ovf w st).1.run.status ≠ .dying := by
  unfold stepMain
  by_cases h1 : st.1.run.status = .dead
  · rw [if_pos h1]
    exact ⟨hj, hs⟩
  · simp only [h1, if_false, hj, Bool.not_true, Bool.false_eq_true]
    split
    · exact ⟨hj, stmt_status _ _ _ hs⟩
    · by_cases h2 : st.1.run.status = .running
      · simp only [h2, if_true]
        refine ⟨hj, ?_⟩
        simp [Run.exit, h2]
      · simp only [h2, if_false]
        exact ⟨hj, hs⟩

theorem runSchedule_joined (ovf : Int) (w : World) (sched : List Turn) :
    ∀ st : Shared × List Goroutine, joined st.2 = true → st.1.run.status ≠ .dying →
      runSchedule ovf w st sched = (stepMain ovf w)^[sched.count .main] st := by
  induction sched with
  | nil => intro st _ _; rfl
  | cons t rest ih =>
    intro st hj hs
    unfold runSchedule at ih ⊢
    rw [List.foldl_cons]
    cases t with
    | go i =>
      have : stepTurn ovf w st (.go i) = st := by
        show stepAt ovf w st i = st
        exact stepAt_joined ovf w st.1 st.2 hj i
      rw [this, ih st hj hs]
      simp
    | main =>
      obtain ⟨hj', hs'⟩ := stepMain_keeps ovf w st hj hs
      show List.foldl (stepTurn ovf w) (stepMain ovf w st) rest = _
      rw [ih _ hj' hs']
      simp [Function.iterate_succ_apply]
    | abort =>
      have : stepTurn ovf w st .abort = st := by
        show ({ st.1 with run := st.1.run.abort }, st.2) = st
        rw [abort_of_not_dying _ hs]
      rw [this, ih st hj hs]
      simp

theorem stepMain_dead (ovf : Int) (w : World) (st : Shared × List Goroutine)
    (h : st.1.run.status = .dead) : stepMain ovf w st = st := by
  unfold stepMain
  simp [h]

/-- Six steps of `main` after the join, in a process without a panic: the
statements of lines 50 to 70 up to the first failing command, or all of them
and the return. -/
theorem stepMain_six (ovf : Int) (w : World) (st : Shared × List Goroutine)
    (hj : joined st.2 = true) (hr : st.1.run.status = .running) (hpc : st.1.mainPc = 0)
    (hb : isInt64 st.1.totalBeforeSize) (ha : isInt64 st.1.totalAfterSize) :
    ((stepMain ovf w)^[6] st).1.run =
      ⟨st.1.run.events ++ eventsAfterJoin ovf w.env st.1.reportTable st.1.totalBeforeSize
        st.1.totalAfterSize, .dead⟩ := by
  obtain ⟨⟨rt, tb, ta, locked, pc, ⟨ev, status⟩⟩, gs⟩ := st
  simp only at hj hr hpc hb ha
  subst hr hpc
  have hw := wrap64_sub_eq_zero ta tb ha hb
  by_cases heq : ta = tb
  · have hw' : wrap64 (ta - tb) = 0 := hw.mpr heq
    have hz : wrap64 0 = 0 := by decide
    simp [Function.iterate_succ_apply, stepMain, hj, publishStmts, hw', hz, eventsAfterJoin, heq,
      Run.stmt, Run.println, Run.exit]
  · have hw' : ¬ wrap64 (ta - tb) = 0 := fun h => heq (hw.mp h)
    cases h1 : w.env.cmdErr "git" ["add", "."] <;>
    cases h2 : w.env.cmdErr "git" ["commit", "-m", "Optimize images of " ++ w.env.githubSha] <;>
    cases h3 : w.env.cmdErr "git" ["push", "origin", w.env.remoteBranch] <;>
    cases h4 : w.env.cmdErr "hub" ["pull-request", "-m",
      "\n".intercalate (finalMessage ovf rt tb ta)] <;>
    simp [Function.iterate_succ_apply, stepMain, hj, publishStmts, hw', eventsAfterJoin, heq,
      Run.stmt, Run.println, Run.exit, Run.execCommand, commandEvents, fourCommands,
      h1, h2, h3, h4]

/-- Claim C2, amended: from every state after the join with `int64` totals, in a
process that no panic is ending, and under every schedule that lets `main` run
on, `main` prints the no-op message, starts no command and returns exactly when
the totals are equal; otherwise it starts `git add`, `git commit`, `git push`
and `hub pull-request` in that order, up to and including the first one that
fails, on which `execCommand` prints the error and exits with status 1; when all
four succeed it prints the closing message and returns. -/
theorem publish_commands (ovf : Int) (w : World) (st : Shared × List Goroutine)
    (sched : List Turn)
    (hj : joined st.2 = true) (hr : st.1.run.status = .running) (hpc : st.1.mainPc = 0)
    (hb : isInt64 st.1.totalBeforeSize) (ha : isInt64 st.1.totalAfterSize)
    (hs : 6 ≤ sched.count .main) :
    (runSchedule ovf w st sched).1.run =
      ⟨st.1.run.events ++ eventsAfterJoin ovf w.env st.1.reportTable st.1.totalBeforeSize
        st.1.totalAfterSize, .dead⟩ ∧
    ((eventsAfterJoin ovf w.env st.1.reportTable st.1.totalBeforeSize
        st.1.totalAfterSize).head? = some (.println "images are already optimized") ↔
      st.1.totalAfterSize = st.1.totalBeforeSize) ∧
    (commandsOf (eventsAfterJoin ovf w.env st.1.reportTable st.1.totalBeforeSize
        st.1.totalAfterSize) = [] ↔ st.1.totalAfterSize = st.1.totalBeforeSize) ∧
    (st.1.totalAfterSize = st.1.totalBeforeSize →
      eventsAfterJoin ovf w.env st.1.reportTable st.1.totalBeforeSize st.1.totalAfterSize =
        [.println "images are already optimized", .exit 0]) ∧
    (st.1.totalAfterSize ≠ st.1.totalBeforeSize →
      eventsAfterJoin ovf w.env st.1.reportTable st.1.totalBeforeSize st.1.totalAfterSize =
        commandEvents w.env.cmdErr (fourCommands ovf w.env st.1.reportTable
          st.1.totalBeforeSize st.1.totalAfterSize) ∧
      commandsOf (eventsAfterJoin ovf w.env st.1.reportTable st.1.totalBeforeSize
        st.1.totalAfterSize) =
        untilFailure w.env.cmdErr (fourCommands ovf w.env st.1.reportTable
          st.1.totalBeforeSize st.1.totalAfterSize)) ∧
    (st.1.totalAfterSize ≠ st.1.totalBeforeSize →
      (∀ c ∈ fourCommands ovf w.env st.1.reportTable st.1.totalBeforeSize
        st.1.totalAfterSize, w.env.cmdErr c.1 c.2 = none) →
      eventsAfterJoin ovf w.env st.1.reportTable st.1.totalBeforeSize st.1.totalAfterSize =
        (fourCommands ovf w.env st.1.reportTable st.1.totalBeforeSize
          st.1.totalAfterSize).map (fun c => Event.exec c.1 c.2) ++
          [.println "Successfully optimized", .exit 0]) := by
  have hrun : (runSchedule ovf w st sched).1.run =
      ⟨st.1.run.events ++ eventsAfterJoin ovf w.env st.1.reportTable st.1.totalBeforeSize
        st.1.totalAfterSize, .dead⟩ := by
    rw [runSchedule_joined ovf w sched st hj (by rw [hr]; decide)]
    obtain ⟨k, hk⟩ := Nat.exists_eq_add_of_le hs
    have h6 := stepMain_six ovf w st hj hr hpc hb ha
    have hdead : ((stepMain ovf w)^[6] st).1.run.status = .dead := by rw [h6]
    rw [hk, Nat.add_comm, Function.iterate_add_apply,
      Function.iterate_fixed (stepMain_dead ovf w _ hdead), h6]
  refine ⟨hrun, ?_⟩
  generalize st.1.totalBeforeSize = tb
  generalize st.1.totalAfterSize = ta
  generalize st.1.reportTable = rt
  have key : ta ≠ tb → commandsOf (commandEvents w.env.cmdErr (fourCommands ovf w.env rt tb ta)) =
      untilFailure w.env.cmdErr (fourCommands ovf w.env rt tb ta) := by
    intro _
    simp only [fourCommands, commandEvents, untilFailure]
    cases h1 : w.env.cmdErr "git" ["add", "."] <;>
    cases h2 : w.env.cmdErr "git" ["commit", "-m", "Optimize images of " ++ w.env.githubSha] <;>
    cases h3 : w.env.cmdErr "git" ["push", "origin", w.env.remoteBranch] <;>
    cases h4 : w.env.cmdErr "hub" ["pull-request", "-m",
      "\n".intercalate (finalMessage ovf rt tb ta)] <;>
    simp [commandsOf]
  have hhead : ∀ l, (commandEvents w.env.cmdErr (("git", ["add", "."]) :: l)).head? =
      some (.exec "git" ["add", "."]) := by
    intro l
    simp only [commandEvents]
    cases w.env.cmdErr "git" ["add", "."] <;> rfl
  refine ⟨?_, ?_, ?_, ?_, ?_⟩
  · by_cases heq : ta = tb
    · simp [eventsAfterJoin, heq]
    · simp only [eventsAfterJoin, heq, if_false, fourCommands, hhead, iff_false]
      simp
  · by_cases heq : ta = tb
    · simp [eventsAfterJoin, heq, commandsOf]
    · simp only [eventsAfterJoin, heq, if_false, iff_false, key heq]
      simp only [fourCommands, untilFailure]
      split_ifs <;> simp
  · intro heq
    simp [eventsAfterJoin, heq]
  · intro heq
    simp only [eventsAfterJoin, heq, if_false, key heq, and_self]
  · intro heq hall
    simp only [fourCommands, List.mem_cons, List.mem_singleton, forall_eq_or_imp, forall_eq,
      List.not_mem_nil, false_implies, implies_true, and_true] at hall
    obtain ⟨h1, h2, h3, h4⟩ := hall
    simp [eventsAfterJoin, heq, fourCommands, commandEvents, h1, h2, h3, h4]

set_option maxRecDepth 100000 in
theorem publish_commands_witness :
    (runSchedule amd64Indefinite threeFiles joinedThree
      [.main, .abort, .go 1, .main, .main, .main, .main, .main]).1.run =
      ⟨joinedThree.1.run.events ++
        (fourCommands amd64Indefinite calmEnv joinedThree.1.reportTable 3500 3200).map
          (fun c => Event.exec c.1 c.2) ++
        [.println "Successfully optimized", .exit 0], .dead⟩ :=
  (publish_commands amd64Indefinite threeFiles joinedThree
    [.main, .abort, .go 1, .main, .main, .main, .main, .main]
    (by decide) (by decide) (by decide) (by decide) (by decide) (by decide)).1.trans (by decide)

set_option maxRecDepth 100000 in
/-- Claim C2 as stated fails in two ways. When a command fails: with the three
images of the example (totals 3500 and 3200) and a failing `git add`,
`execCommand` prints the error and exits, and neither `git commit`, `git push`
nor `hub pull-request` is started. In a process that a panic is ending: with one
image that cannot be opened the goroutine panics in `fileSize`, its deferred
`wg.Done()` releases `main` with both totals at 0, and the runtime ends the
process before the no-op message, or after it. -/
theorem publish_stops_early :
    main amd64Indefinite threeFilesBrokenGit (serialSchedule 3 ++ mainTurns) =
      ⟨[.exec "optipng" ["-o2", "a.png"], .exec "optipng" ["-o2", "b.png"],
        .exec "optipng" ["-o2", "c.png"], .exec "git" ["add", "."],
        .println "exit status 128", .exit 1], .dead⟩ ∧
    (joined (launchAndRun amd64Indefinite lostFile Run.start ["a.png"] [.go 0]).2 = true ∧
      (launchAndRun amd64Indefinite lostFile Run.start ["a.png"] [.go 0]).1.totalBeforeSize = 0 ∧
      (launchAndRun amd64Indefinite lostFile Run.start ["a.png"] [.go 0]).1.totalAfterSize = 0) ∧
    main amd64Indefinite lostFile ([.go 0, .abort] ++ mainTurns) =
      ⟨[.println "open a.png: no such file or directory", .println "invalid argument",
        .panic nilDeref, .exit 2], .dead⟩ ∧
    main amd64Indefinite lostFile ([.go 0, .main, .abort] ++ mainTurns) =
      ⟨[.println "open a.png: no such file or directory", .println "invalid argument",
        .panic nilDeref, .println "images are already optimized", .exit 2], .dead⟩ := by
  decide

end Imgcmp
